import Mathlib

/-!
Verification development for the OpenBSD HAMMER2 VFS operations layer
(`src/sys/fs/hammer2/hammer2_vfsops.c`).

The C file manages two global registries — `hammer2_mntlist` (opened devices,
`hammer2_dev_t`) and `hammer2_pfslist` / `hammer2_spmplist` (logical PFS
identities, `hammer2_pfs_t`) — and drives mount/unmount transitions against
them.  We embed the registry-manipulating functions as pure Lean functions on
an explicit state type and prove lifecycle invariants about every reachable
state.

Modelling conventions:
* Pointers to `hammer2_dev_t` are represented by the underlying storage
  identity (`DevId`, the `v_rdev` aliasing class); at any time at most one
  device object exists per identity (proved below), so this is faithful.
* Kernel assertions (`KKASSERT` / `KASSERTMSG`) that can actually fire are
  modelled by returning `none` (a panic); operations that return an errno
  return `some (errno, state)`.
* The chain/B-tree engine, buffer cache and vnode layer are external
  collaborators: the on-disk super-root namespace of a device is modelled as
  a fixed `Media` value per device identity, and chain-level I/O outcomes
  (`schain == NULL`, `chain->error`) as boolean fields of that value.
* `TAILQ_INSERT_TAIL` is `++ [x]`, `TAILQ_REMOVE` is `List.eraseP`, and the
  restart-on-free idiom (`goto again`) is expressed by structurally
  equivalent folds, with equivalence argued where used.
-/

namespace H2

/-- Underlying storage identity of a device (the `v_rdev` aliasing class). -/
abbrev DevId := Nat

/-- Identity of an OS `struct mount` handle. -/
abbrev MountId := Nat

/-- Error numbers as returned to the VFS layer. -/
abbrev Errno := Nat

/-- OpenBSD errno: no such file or directory. -/
def ENOENT : Errno := 2
/-- OpenBSD errno: input/output error (device open failure). -/
def EIO : Errno := 5
/-- OpenBSD errno: device busy. -/
def EBUSY : Errno := 16
/-- OpenBSD errno: invalid argument. -/
def EINVAL : Errno := 22

/-- `HAMMER2_MAXCLUSTER` from hammer2.h: maximum cluster members per PFS. -/
def HAMMER2_MAXCLUSTER : Nat := 8

/-- `HAMMER2_PBUFSIZE` from hammer2_disk.h: the fixed logical block size the
mount sets as `mnt_stat.f_bsize`. -/
def HAMMER2_PBUFSIZE : Nat := 65536

/-- `HAMMER2_PFSTYPE_NONE` (cleared slot type). -/
def HAMMER2_PFSTYPE_NONE : Nat := 0
/-- `HAMMER2_PFSTYPE_MASTER` (forced on local mounts, see `hammer2_pfsalloc`). -/
def HAMMER2_PFSTYPE_MASTER : Nat := 6

/-- On-disk data of one named PFS entry under a device's super-root: the
`hammer2_inode_data_t` fields `hammer2_pfsalloc` reads (`filename`,
`meta.pfs_clid`, `meta.pfs_type`), the root chain's
`bref.embed.stats.inode_count` used by statfs, and whether the chain for this
entry reads back without error (`chain->error == 0`). -/
structure LabelData where
  filename : String
  pfs_clid : Nat
  pfs_type : Nat
  inode_count : Nat
  chainOk : Bool
deriving DecidableEq

/-- The fixed on-disk content of a device: its super-root namespace and the
volume-header fields consumed by this layer. `srootOk` models a successful
super-root lookup (`schain != NULL && schain->error == 0`). -/
structure Media where
  labels : List LabelData
  srootOk : Bool
  srootClid : Nat
  srootType : Nat
  allocator_size : Nat
  allocator_free : Nat
deriving DecidableEq

/-- A root chain reference held by a cluster slot: `chain->hmp` identifies the
backing device, `inode_count` is `chain->bref.embed.stats.inode_count`. -/
structure Chain where
  hmp : DevId
  inode_count : Nat
deriving DecidableEq

/-- One cluster slot of a PFS: the parallel entries `pmp->pfs_names[i]`,
`pmp->pfs_hmps[i]`, `pmp->pfs_types[i]` and `iroot->cluster.array[i].chain`,
which the source always writes and clears together. -/
structure Slot where
  name : Option String
  hmp : Option DevId
  ptype : Nat
  chain : Option Chain
deriving DecidableEq

/-- A cleared cluster slot (all fields as `hammer2_pfsfree_scan` leaves them). -/
def Slot.empty : Slot :=
  { name := none, hmp := none, ptype := HAMMER2_PFSTYPE_NONE, chain := none }

/-- A `hammer2_pfs_t` as far as this layer manipulates it.  `uid` is the
object identity (allocation order).  `mp` is the `pmp->mp` field — note the
source deliberately does *not* clear it on unmount (`//pmp->mp = NULL`), so it
can go stale; the live OS binding is tracked separately in `H2State.bound`.
`iroot_refs` stands for `pmp->iroot->refs`; the registry holds exactly one
reference in every state this layer produces. -/
structure Pfs where
  uid : Nat
  force_local : Option DevId
  pfs_clid : Nat
  slots : List Slot
  nchains : Nat
  mp : Option MountId
  isSpmp : Bool
  iroot_refs : Nat
deriving DecidableEq

/-- `pmp->pfs_names[0]`, the key used for PFS identity in forced-local mode. -/
def Pfs.name0 (p : Pfs) : Option String := (p.slots.headD Slot.empty).name

/-- A `hammer2_dev_t` as far as this layer manipulates it: storage identity,
the `HMNT2_LOCAL` device flag, the volume-header allocator fields read by
statfs, and the `mount_count` teardown gate. -/
structure Dev where
  id : DevId
  hflags_local : Bool
  allocator_size : Nat
  allocator_free : Nat
  mount_count : Nat
deriving DecidableEq

/-- The global mutable state of hammer2_vfsops.c: `hammer2_mntlist`,
`hammer2_pfslist`, `hammer2_spmplist`, plus the OS mount table entries
(`mp->mnt_data`) pointing at PFS objects, and a fresh-identity counter for
newly allocated PFS structures. -/
structure H2State where
  mntlist : List Dev
  pfslist : List Pfs
  spmplist : List Pfs
  bound : List (MountId × Nat)
  nextUid : Nat
deriving DecidableEq

/-- The state after `hammer2_init`: all registries empty. -/
def initState : H2State :=
  { mntlist := [], pfslist := [], spmplist := [], bound := [], nextUid := 0 }

/-- Look up a PFS object by identity in `hammer2_pfslist`. -/
def findPfs (st : H2State) (u : Nat) : Option Pfs :=
  st.pfslist.find? (fun q => q.uid == u)

/-- Replace the PFS with identity `u` in a registry list. -/
def updatePfsList (l : List Pfs) (u : Nat) (f : Pfs → Pfs) : List Pfs :=
  l.map (fun q => if q.uid = u then f q else q)

/-- Apply an update to the head slot of a cluster array (slot index 0). -/
def setSlot0 (slots : List Slot) (f : Slot → Slot) : List Slot :=
  match slots with
  | [] => []
  | s :: rest => f s :: rest

/-- The scan condition of `hammer2_pfsalloc` (lines 174-187): an existing PFS
matches when its `force_local` pointer agrees and then either (clustered mode,
`force_local == NULL`) the binary cluster ids compare equal, or (forced-local
mode) `pfs_names[0]` is set and compares equal to the on-disk filename. -/
def pfsMatch (force_local : Option DevId) (rip : LabelData) (p : Pfs) : Bool :=
  force_local == p.force_local &&
  ((force_local == none && p.pfs_clid == rip.pfs_clid) ||
   (force_local.isSome && p.name0.isSome && p.name0 == some rip.filename))

/-- The chain-attachment tail of `hammer2_pfsalloc` (lines 223-261).  With no
chain the function stops (`goto done`).  With a chain, `j` must be 0
(`KASSERTMSG(j == 0, ...)` — modelled as `none`), slot `j` is populated (the
type forced to MASTER under forced-local mode), and if the PFS is already
mounted the backing device's `mount_count` is bumped. -/
def attachChain (st : H2State) (pmp : Pfs) (chain : Option Chain)
    (ripdata : Option LabelData) (force_local : Option DevId) :
    Option (Nat × H2State) :=
  match chain, ripdata with
  | none, _ => some (pmp.uid, st)
  | some _, none => none
  | some c, some rip =>
    if pmp.nchains ≠ 0 then none
    else
      let s : Slot :=
        { name := some rip.filename, hmp := some c.hmp,
          ptype := if force_local.isSome then HAMMER2_PFSTYPE_MASTER
                   else rip.pfs_type,
          chain := some c }
      let pmp' : Pfs := { pmp with slots := pmp.slots.set 0 s, nchains := 1 }
      let st1 : H2State :=
        { st with pfslist := updatePfsList st.pfslist pmp.uid (fun _ => pmp') }
      let st2 : H2State :=
        if pmp.mp.isSome then
          { st1 with mntlist := st1.mntlist.map (fun dev =>
              if dev.id = c.hmp then
                { dev with mount_count := dev.mount_count + 1 }
              else dev) }
        else st1
      some (pmp.uid, st2)

/-- A freshly allocated `hammer2_pfs_t` as `hammer2_pfsalloc` zero-allocates
and initializes it: no cluster members yet, no mount binding, SPMP flag iff
no `ripdata` was supplied, and the registry holding the root inode's single
reference. -/
def freshPfs (u : Nat) (ripdata : Option LabelData)
    (force_local : Option DevId) : Pfs :=
  { uid := u, force_local := force_local,
    pfs_clid := match ripdata with
                | some rip => rip.pfs_clid
                | none => 0,
    slots := List.replicate HAMMER2_MAXCLUSTER Slot.empty,
    nchains := 0, mp := none,
    isSpmp := ripdata.isNone, iroot_refs := 1 }

/-- `hammer2_pfsalloc` (lines 157-264).  Asserts `force_local` non-NULL
(`KASSERTMSG(force_local, "only local mount allowed")` — modelled as `none`);
locates an existing PFS via `pfsMatch` when `ripdata` is given, otherwise (the
spmp case) always allocates; a fresh PFS is appended to `hammer2_pfslist` or,
when `ripdata == NULL`, flagged SPMP and appended to `hammer2_spmplist`; then
the optional chain is attached. -/
def hammer2_pfsalloc (st : H2State) (chain : Option Chain)
    (ripdata : Option LabelData) (force_local : Option DevId) :
    Option (Nat × H2State) :=
  if force_local.isNone then none
  else
    let found : Option Pfs :=
      match ripdata with
      | some rip => st.pfslist.find? (fun p => pfsMatch force_local rip p)
      | none => none
    match found with
    | some pmp => attachChain st pmp chain ripdata force_local
    | none =>
      let pmp : Pfs := freshPfs st.nextUid ripdata force_local
      let st1 : H2State :=
        if ripdata.isSome then
          { st with pfslist := st.pfslist ++ [pmp], nextUid := st.nextUid + 1 }
        else
          { st with spmplist := st.spmplist ++ [pmp], nextUid := st.nextUid + 1 }
      attachChain st1 pmp chain ripdata force_local

/-- Whether `hammer2_pfsfree_scan` considers a PFS affected by device `d`:
some `pfs_hmps[i] == hmp` (lines 354-358). -/
def pfsAffected (d : DevId) (p : Pfs) : Bool :=
  p.slots.any (fun s => s.hmp == some d)

/-- Clearing one slot whose `pfs_hmps[i]` matches the device being torn down
(lines 370-387): chain dropped, type set to NONE, name freed, hmp cleared. -/
def detachSlot (d : DevId) (s : Slot) : Slot :=
  if s.hmp == some d then Slot.empty else s

/-- The trailing-slot cleanup of `hammer2_pfsfree_scan` (lines 390-394):
`nchains` becomes the highest index with `pfs_hmps[i]` still set, plus one
(0 when no slot is populated); interior gaps may remain. -/
def nchainsOf : List Slot → Nat
  | [] => 0
  | s :: rest =>
    let n := nchainsOf rest
    if n = 0 then (if (s.hmp).isSome then 1 else 0) else n + 1

/-- Detach every cluster member of device `d` from a PFS and recompute
`nchains` (the per-PFS body of `hammer2_pfsfree_scan`). -/
def detachDev (d : DevId) (p : Pfs) : Pfs :=
  let slots := p.slots.map (detachSlot d)
  { p with slots := slots, nchains := nchainsOf slots }

/-- Per-entry effect of `hammer2_pfsfree_scan`: unaffected entries are
skipped; affected entries are detached and, when no member remains
(`nchains == 0`), destroyed via `hammer2_pfsfree` (removed from the
registry). -/
def scanStep (d : DevId) (p : Pfs) : Option Pfs :=
  if pfsAffected d p then
    let p' := detachDev d p
    if p'.nchains = 0 then none else some p'
  else some p

/-- `hammer2_pfsfree_scan` (lines 335-412) on registry `which` (0 =
`hammer2_pfslist`, otherwise `hammer2_spmplist`).  The C loop restarts from
the head (`goto again`) after each `hammer2_pfsfree` because freeing
invalidates the iterator; a previously processed entry has no slot backed by
`hmp` left, so the restarted walk skips it, and the loop is equivalent to one
pass applying `scanStep` to every entry.  (The `hmp->spmp` / `vchain.pmp`
back-pointer cleanup is bookkeeping for the chain engine, not modelled; the
spmp itself is tracked by `spmplist` membership.) -/
def hammer2_pfsfree_scan (st : H2State) (d : DevId) (which : Nat) : H2State :=
  if which = 0 then { st with pfslist := st.pfslist.filterMap (scanStep d) }
  else { st with spmplist := st.spmplist.filterMap (scanStep d) }

/-- The device branch of `hammer2_unmount_helper` (lines 1054-1093): a device
with PFS mounts still depending on it is left alone; otherwise every PFS
backed by it is reaped from both registries, its device vnodes are closed
(external), and it is removed from `hammer2_mntlist` and freed. -/
def hammer2_unmount_helper_dev (st : H2State) (hmp : Dev) : H2State :=
  if hmp.mount_count ≠ 0 then st
  else
    let st1 := hammer2_pfsfree_scan st hmp.id 0
    let st2 := hammer2_pfsfree_scan st1 hmp.id 1
    { st2 with mntlist := st2.mntlist.eraseP (fun dev => dev.id == hmp.id) }

/-- The fixpoint sweep at the end of the PFS branch of
`hammer2_unmount_helper` (lines 1044-1051), with explicit recursion depth:
rescan `hammer2_mntlist` and tear down any device whose `mount_count`
reached 0, restarting until none qualifies.  Each teardown removes the
device from the registry, so a depth of `mntlist.length` always reaches the
fixpoint (proved below). -/
def sweepGo : Nat → H2State → H2State
  | 0, st => st
  | n + 1, st =>
    match st.mntlist.find? (fun dev => dev.mount_count == 0) with
    | none => st
    | some dev => sweepGo n (hammer2_unmount_helper_dev st dev)

/-- The fixpoint sweep (lines 1044-1051); see `sweepGo`. -/
def sweepDevs (st : H2State) : H2State :=
  sweepGo st.mntlist.length st

/-- The chains of the populated cluster slots below `nchains` — the range the
mount/unmount helpers walk (`for (i = 0; i < cluster->nchains; ++i)`). -/
def clusterChains (p : Pfs) : List Chain :=
  (p.slots.take p.nchains).filterMap (fun s => s.chain)

/-- Increment `mount_count` on every device backing a cluster member of `p`
(once per member), as `hammer2_mount_helper` does. -/
def incCountsFor (mnt : List Dev) (p : Pfs) : List Dev :=
  mnt.map (fun dev =>
    { dev with mount_count :=
        dev.mount_count + (clusterChains p).countP (fun c => c.hmp == dev.id) })

/-- Decrement `mount_count` on every device backing a cluster member of `p`
(once per member), as the PFS branch of `hammer2_unmount_helper` does. -/
def decCountsFor (mnt : List Dev) (p : Pfs) : List Dev :=
  mnt.map (fun dev =>
    { dev with mount_count :=
        dev.mount_count - (clusterChains p).countP (fun c => c.hmp == dev.id) })

/-- `hammer2_mount_helper` (lines 979-997): connect `mp->mnt_data` and
`pmp->mp`, then bump `mount_count` once for every non-NULL cluster chain of
the PFS. -/
def hammer2_mount_helper (st : H2State) (mid : MountId) (u : Nat) : H2State :=
  let st1 : H2State :=
    { st with pfslist := updatePfsList st.pfslist u (fun p => { p with mp := some mid }),
              bound := st.bound ++ [(mid, u)] }
  match findPfs st1 u with
  | none => st1
  | some p => { st1 with mntlist := incCountsFor st1.mntlist p }

/-- The PFS branch of `hammer2_unmount_helper` (lines 1025-1051): clear
`mp->mnt_data` (the source deliberately leaves `pmp->mp` set), drop
`mount_count` once per cluster chain, then run the fixpoint sweep. -/
def hammer2_unmount_helper_pmp (st : H2State) (mid : MountId) (u : Nat) : H2State :=
  let st1 : H2State := { st with bound := st.bound.eraseP (fun b => b.1 == mid) }
  let st2 : H2State :=
    match findPfs st1 u with
    | none => st1
    | some p => { st1 with mntlist := decCountsFor st1.mntlist p }
  sweepDevs st2

/-- Mount request inputs: the OS mount handle, the optional device part of the
`device@label` spec (none models a `mount @LABEL` without a device), the
optional label (none/empty defaults to "DATA"), the `HMNT2_LOCAL` bit of
`args->hflags`, and whether opening the device volumes succeeds
(`hammer2_open_devvp` / `hammer2_init_volumes`, external). -/
structure MountIn where
  mid : MountId
  devspec : Option DevId
  label : Option String
  hflagsLocal : Bool
  openOk : Bool
deriving DecidableEq

/-- Label extraction (lines 482-492): a missing or empty label defaults to
"DATA". -/
def labelOf (inp : MountIn) : String := inp.label.getD "DATA"

/-- The label-to-device probe for device-less mounts (lines 557-575): walk
`hammer2_pfslist`; in each PFS take the first slot whose `pfs_names[i]`
matches the label and read its `pfs_hmps[i]`; stop at the first PFS yielding
a non-NULL device. -/
def findLabelDev (st : H2State) (label : String) : Option DevId :=
  st.pfslist.foldl (fun acc pmp =>
    match acc with
    | some _ => acc
    | none =>
      match pmp.slots.find? (fun s => s.name == some label) with
      | some s => s.hmp
      | none => none) none

/-- `hammer2_update_pmps` inner loop (lines 919-932): for every readable inode
chain under the super-root, register the named PFS via `hammer2_pfsalloc`;
chains with errors are reported and skipped. -/
def update_pmps_go (d : DevId) (force_local : Option DevId) :
    H2State → List LabelData → Option H2State
  | st, [] => some st
  | st, L :: rest =>
    if L.chainOk then
      match hammer2_pfsalloc st (some { hmp := d, inode_count := L.inode_count })
          (some L) force_local with
      | none => none
      | some (_, st') => update_pmps_go d force_local st' rest
    else update_pmps_go d force_local st rest

/-- `hammer2_update_pmps` (lines 896-938): scan the device's super-root and
create `hammer2_pfs` structures for every named PFS, in forced-local mode iff
the device carries `HMNT2_LOCAL`. -/
def hammer2_update_pmps (env : DevId → Media) (st : H2State) (d : DevId) :
    Option H2State :=
  match st.mntlist.find? (fun dev => dev.id == d) with
  | none => none
  | some dev =>
    update_pmps_go d (if dev.hflags_local then some d else none) st (env d).labels

/-- The tail of `hammer2_mount` once the device is established (lines
761-890): look the label up under the device's super-root (dirhash range scan
resolved by exact name comparison), acquire the PFS structure via
`hammer2_pfsalloc`, reject an already-mounted PFS with `EBUSY`, and otherwise
bind through `hammer2_mount_helper`.  Every failure unwinds through the
device branch of `hammer2_unmount_helper` (the follow-up forced
`hammer2_unmount` call sees `mp->mnt_data == NULL` and is a no-op). -/
def hammer2_mount_tail (env : DevId → Media) (st : H2State) (inp : MountIn)
    (d : DevId) : Option (Errno × H2State) :=
  match st.mntlist.find? (fun dev => dev.id == d) with
  | none => none
  | some dev =>
    let force_local : Option DevId := if dev.hflags_local then some d else none
    match (env d).labels.find? (fun L => L.filename == labelOf inp) with
    | none => some (ENOENT, hammer2_unmount_helper_dev st dev)
    | some L =>
      if ¬ L.chainOk then some (EINVAL, hammer2_unmount_helper_dev st dev)
      else
        match hammer2_pfsalloc st none (some L) force_local with
        | none => none
        | some (u, st1) =>
          match findPfs st1 u with
          | none => none
          | some pmp =>
            if pmp.mp.isSome then
              some (EBUSY, hammer2_unmount_helper_dev st1 dev)
            else
              some (0, hammer2_mount_helper st1 inp.mid u)

/-- `hammer2_mount` (lines 417-891) for a fresh (non-update, read-only)
request.  Control flow mirrored from the source: resolve the device by
storage identity or by probing registered labels; for a first mount of a
device, open it (external, `openOk`), assert `HMNT2_LOCAL`
(`KKASSERT(hmp->hflags & HMNT2_LOCAL)` — modelled as `none`), register it,
create its private spmp with `pfs_hmps[0] = hmp`, validate the super-root
(failure unwinds the whole device), record the super-root's cluster id, and
scan all named PFS via `hammer2_update_pmps`; then resolve and bind the
requested label. -/
def hammer2_mount (env : DevId → Media) (st : H2State) (inp : MountIn) :
    Option (Errno × H2State) :=
  match inp.devspec with
  | none =>
    match findLabelDev st (labelOf inp) with
    | none => some (ENOENT, st)
    | some d => hammer2_mount_tail env st inp d
  | some d =>
    if (st.mntlist.find? (fun dev => dev.id == d)).isSome then
      hammer2_mount_tail env st inp d
    else if ¬ inp.openOk then some ( EIO, st)
    else if ¬ inp.hflagsLocal then none
    else
      let freshDev : Dev :=
        { id := d, hflags_local := true,
          allocator_size := (env d).allocator_size,
          allocator_free := (env d).allocator_free,
          mount_count := 0 }
      let st1 : H2State := { st with mntlist := st.mntlist ++ [freshDev] }
      match hammer2_pfsalloc st1 none none (some d) with
      | none => none
      | some (su, st2) =>
        let links : Pfs → Pfs := fun p =>
          { p with slots := setSlot0 p.slots (fun s => { s with hmp := some d }) }
        let st3 : H2State := { st2 with spmplist := updatePfsList st2.spmplist su links }
        if ¬ (env d).srootOk then
          some (EINVAL, hammer2_unmount_helper_dev st3 freshDev)
        else
          let finish : Pfs → Pfs := fun p =>
            { p with
              pfs_clid := (env d).srootClid,
              slots := setSlot0 p.slots (fun s => { s with ptype := (env d).srootType }) }
          let st4 : H2State :=
            { st3 with spmplist := updatePfsList st3.spmplist su finish }
          match hammer2_update_pmps env st4 d with
          | none => none
          | some st5 => hammer2_mount_tail env st5 inp d

/-- Unmount request inputs: the OS mount handle, `MNT_FORCE`, and whether
`vflush` without `FORCECLOSE` would succeed (external vnode state). -/
structure UnmountIn where
  mid : MountId
  force : Bool
  flushOk : Bool
deriving DecidableEq

/-- `hammer2_unmount` (lines 940-971): a mount with no PFS binding
(`MPTOPMP(mp) == NULL`) returns 0 immediately; a failing `vflush` (absent
`MNT_FORCE`) returns its error with nothing changed; otherwise the PFS branch
of `hammer2_unmount_helper` unbinds and sweeps. -/
def hammer2_unmount (st : H2State) (inp : UnmountIn) : Errno × H2State :=
  match st.bound.find? (fun b => b.1 == inp.mid) with
  | none => (0, st)
  | some b =>
    if !inp.flushOk && !inp.force then (EBUSY, st)
    else (0, hammer2_unmount_helper_pmp st inp.mid b.2)

/-- The statfs snapshot fields populated by `hammer2_statfs`. -/
structure StatfsOut where
  f_bsize : Nat
  f_blocks : Nat
  f_bfree : Nat
  f_bavail : Nat
  f_files : Nat
deriving DecidableEq

/-- `hammer2_statfs` (lines 1163-1194): `hmp = pmp->pfs_hmps[0]` (EINVAL when
NULL, modelled as `none`); blocks total/free from that device's volume-header
allocator fields divided by the fixed block size; `f_files` from slot 0's
chain statistics, 0 when that chain is NULL. -/
def hammer2_statfs (st : H2State) (u : Nat) : Option StatfsOut :=
  match findPfs st u with
  | none => none
  | some pmp =>
    match (pmp.slots.headD Slot.empty).hmp with
    | none => none
    | some d =>
      match st.mntlist.find? (fun dev => dev.id == d) with
      | none => none
      | some dev =>
        some { f_bsize := HAMMER2_PBUFSIZE,
               f_blocks := dev.allocator_size / HAMMER2_PBUFSIZE,
               f_bfree := dev.allocator_free / HAMMER2_PBUFSIZE,
               f_bavail := dev.allocator_free / HAMMER2_PBUFSIZE,
               f_files := match (pmp.slots.headD Slot.empty).chain with
                          | some c => c.inode_count
                          | none => 0 }

/-- Outcome of `hammer2_pfsfree` on a PFS already removed from its registry:
`assertFail` models a fatal kernel assertion, `stillInUse` the deferred path
that logs "PFS at %s still in use" and keeps the structure allocated, `freed`
the full release. -/
inductive PfsfreeOutcome where
  | assertFail
  | stillInUse
  | freed
deriving DecidableEq

/-- The `chains_still_present` computation of `hammer2_pfsfree` (lines
303-307): some cluster chain below `nchains` is non-NULL with a non-empty
`core.rbtree`.  Each entry of `chains` is the chain of one slot, carrying
whether its rbtree is non-empty. -/
def chainsStillPresent (nchains : Nat) (chains : List (Option Bool)) : Bool :=
  (chains.take nchains).any (fun c => c == some true)

/-- The teardown decision of `hammer2_pfsfree` (lines 270-329), after the
unconditional registry removal: `KASSERTMSG(iroot->refs == 1, ...)` makes any
root-inode reference beyond the registry's own one fatal; otherwise, live
sub-chains under some cluster member (`chains_still_present`) defer the free
with a "still in use" report (`KKASSERT(pmp->mp)` guards the log line);
otherwise all storage is released. -/
def hammer2_pfsfree_outcome (mpSet : Bool) (irootRefs : Nat) (nchains : Nat)
    (chains : List (Option Bool)) : PfsfreeOutcome :=
  let csp := chainsStillPresent nchains chains
  if irootRefs ≠ 1 then .assertFail
  else if csp then
    if !mpSet then .assertFail else .stillInUse
  else .freed

/-- One observable transition of the orchestrator: a mount or unmount request
that runs to completion without tripping a kernel assertion.  A mount request
arrives on a freshly allocated OS `struct mount`, so its handle is not one of
the currently bound handles. -/
inductive Step (env : DevId → Media) : H2State → H2State → Prop
  | mount : ∀ (inp : MountIn) (e : Errno) (st st' : H2State),
      inp.mid ∉ st.bound.map Prod.fst →
      hammer2_mount env st inp = some (e, st') → Step env st st'
  | unmount : ∀ (inp : UnmountIn) (e : Errno) (st st' : H2State),
      hammer2_unmount st inp = (e, st') → Step env st st'

/-- States reachable from the freshly initialized module by mount/unmount
requests against devices with fixed on-disk content `env`. -/
inductive Reachable (env : DevId → Media) : H2State → Prop
  | init : Reachable env initState
  | step : ∀ {st st' : H2State}, Reachable env st → Step env st st' →
      Reachable env st'

/-- The registered device identities. -/
def devIds (st : H2State) : List DevId := st.mntlist.map (fun dv => dv.id)

/-- The number of cluster members of PFS `u` backed by device `d`. -/
def pfsLoad (st : H2State) (u : Nat) (d : DevId) : Nat :=
  match findPfs st u with
  | some p => (clusterChains p).countP (fun c => c.hmp == d)
  | none => 0

/-- Total number of cluster members backed by device `d` across all PFS
currently bound to an OS mount (counting each backing member once, as
`hammer2_mount_helper` / `hammer2_unmount_helper` do). -/
def boundLoad (st : H2State) (d : DevId) : Nat :=
  (st.bound.map (fun b => pfsLoad st b.2 d)).sum

/-- The number of PFS objects currently bound to an OS mount that have at
least one cluster member backed by device `d`. -/
def boundDepCount (st : H2State) (d : DevId) : Nat :=
  st.bound.countP (fun b => decide (0 < pfsLoad st b.2 d))

/-- A populated cluster slot as `hammer2_pfsalloc` fills it. -/
def memberSlot (nm : String) (ty : Nat) (c : Chain) : Slot :=
  { name := some nm, hmp := some c.hmp, ptype := ty, chain := some c }

/-- The cluster state of every PFS this implementation ever registers in
`hammer2_pfslist`: exactly one member, at slot 0, backed by device `d`
(`hammer2_pfsalloc` asserts `nchains == 0` before attaching, so no PFS ever
reaches two members). -/
def OneMember (d : DevId) (p : Pfs) : Prop :=
  ∃ nm ty c, Chain.hmp c = d ∧
    p.slots = memberSlot nm ty c ::
      List.replicate (HAMMER2_MAXCLUSTER - 1) Slot.empty ∧
    p.nchains = 1

/-- The head cluster slot of a device's private super-root PFS:
`spmp->pfs_hmps[0] = hmp` with no chain stored and `nchains` left 0. -/
def spmpSlot0 (d : DevId) (ty : Nat) : Slot :=
  { name := none, hmp := some d, ptype := ty, chain := none }

/-- The cluster state of every PFS registered in `hammer2_spmplist`. -/
def SpmpShape (d : DevId) (p : Pfs) : Prop :=
  ∃ ty, p.slots = spmpSlot0 d ty ::
      List.replicate (HAMMER2_MAXCLUSTER - 1) Slot.empty ∧
    p.nchains = 0

/-- The registry-facing properties every PFS created for device `d` by a
super-root scan carries. -/
def NewProp (d : DevId) (p : Pfs) : Prop :=
  p.force_local = some d ∧ p.isSpmp = false ∧ p.mp = none ∧
  p.iroot_refs = 1 ∧ OneMember d p

/-- The PFS object `hammer2_pfsalloc` produces when it allocates a new
structure and attaches the root chain of a named super-root entry in
forced-local mode (type forced to MASTER). -/
def attachedPfs (u : Nat) (rip : LabelData) (fl : DevId) (c : Chain) : Pfs :=
  { freshPfs u (some rip) (some fl) with
    slots := memberSlot rip.filename HAMMER2_PFSTYPE_MASTER c ::
      List.replicate (HAMMER2_MAXCLUSTER - 1) Slot.empty,
    nchains := 1 }

/-- The cross-registry invariant maintained by every mount/unmount
transition, minus the positivity of `mount_count` (which is transiently
broken inside the fixpoint sweep and restored by it). -/
structure Inv0 (env : DevId → Media) (st : H2State) : Prop where
  devNodup : (st.mntlist.map (fun dv => dv.id)).Nodup
  devLocal : ∀ dv ∈ st.mntlist, dv.hflags_local = true
  uidNodup : ((st.pfslist ++ st.spmplist).map (fun p => p.uid)).Nodup
  uidLt : ∀ p ∈ st.pfslist ++ st.spmplist, p.uid < st.nextUid
  pfsShape : ∀ p ∈ st.pfslist, ∃ d ∈ devIds st,
      p.force_local = some d ∧ p.isSpmp = false ∧ p.iroot_refs = 1 ∧
      OneMember d p
  labelCover : ∀ dv ∈ st.mntlist, ∀ L ∈ (env dv.id).labels, L.chainOk = true →
      ∃ p ∈ st.pfslist, p.force_local = some dv.id ∧
        p.name0 = some L.filename
  countEq : ∀ dv ∈ st.mntlist, dv.mount_count = boundLoad st dv.id
  midNodup : (st.bound.map Prod.fst).Nodup
  bUidNodup : (st.bound.map Prod.snd).Nodup
  boundPfs : ∀ b ∈ st.bound, ∃ p ∈ st.pfslist, p.uid = b.2 ∧ p.mp = some b.1
  spmpShape : ∀ p ∈ st.spmplist, ∃ d ∈ devIds st,
      p.force_local = some d ∧ p.isSpmp = true ∧ p.mp = none ∧
      p.iroot_refs = 1 ∧ SpmpShape d p

/-- The full invariant: additionally, no registered device has
`mount_count == 0` (the sweep tears such devices down before returning). -/
structure Inv (env : DevId → Media) (st : H2State) extends Inv0 env st : Prop where
  countPos : ∀ dv ∈ st.mntlist, dv.mount_count ≠ 0

/-! ### Concrete test media and states used by the witnesses -/

def LA1 : LabelData :=
  { filename := "DATA", pfs_clid := 10, pfs_type := 6, inode_count := 42,
    chainOk := true }

def LA2 : LabelData :=
  { filename := "ROOT", pfs_clid := 11, pfs_type := 6, inode_count := 7,
    chainOk := true }

def mediaA : Media :=
  { labels := [LA1, LA2], srootOk := true, srootClid := 99, srootType := 0,
    allocator_size := 655360, allocator_free := 327680 }

def envA : DevId → Media := fun _ => mediaA

def mntDATA : MountIn :=
  { mid := 1, devspec := some 0, label := some "DATA", hflagsLocal := true,
    openOk := true }

def mntROOT : MountIn :=
  { mid := 2, devspec := some 0, label := some "ROOT", hflagsLocal := true,
    openOk := true }

def mntDATA3 : MountIn :=
  { mid := 3, devspec := some 0, label := some "DATA", hflagsLocal := true,
    openOk := true }

def mntNOPE : MountIn :=
  { mid := 1, devspec := some 0, label := some "NOPE", hflagsLocal := true,
    openOk := true }

def stA1 : H2State := ((hammer2_mount envA initState mntDATA).getD (0, initState)).2

def stA2 : H2State := ((hammer2_mount envA stA1 mntROOT).getD (0, initState)).2

def stD : H2State := ((hammer2_mount envA initState mntNOPE).getD (0, initState)).2

def devA2 : Dev :=
  { id := 0, hflags_local := true, allocator_size := 655360,
    allocator_free := 327680, mount_count := 2 }

def qA2 : Pfs := stA2.pfslist.headD (freshPfs 0 none none)

def mediaB : Media :=
  { labels := [LA1], srootOk := true, srootClid := 7, srootType := 0,
    allocator_size := 131072, allocator_free := 65536 }

def envB : DevId → Media := fun _ => mediaB

def stB1 : H2State := ((hammer2_mount envB initState mntDATA).getD (0, initState)).2

def qB : Pfs := stB1.pfslist.headD (freshPfs 0 none none)

def uinB : UnmountIn := { mid := 1, force := false, flushOk := true }

def LC2 : LabelData :=
  { filename := "ROOT", pfs_clid := 10, pfs_type := 6, inode_count := 7,
    chainOk := true }

def mediaC : Media :=
  { labels := [LA1, LC2], srootOk := true, srootClid := 99, srootType := 0,
    allocator_size := 655360, allocator_free := 327680 }

def envC : DevId → Media := fun _ => mediaC

def stC1 : H2State := ((hammer2_mount envC initState mntDATA).getD (0, initState)).2

def pW : Pfs := attachedPfs 1 LA1 0 ⟨0, 42⟩

/-! ### Generic list facts -/

theorem length_eraseP_of_exists {α : Type _} (p : α → Bool) :
    ∀ l : List α, (∃ a ∈ l, p a = true) → (l.eraseP p).length + 1 = l.length := by
  intro l h
  induction l with
  | nil => rcases h with ⟨a, ha, _⟩; cases ha
  | cons x xs ih =>
    by_cases hx : p x = true
    · rw [List.eraseP_cons_of_pos hx]; rfl
    · rw [List.eraseP_cons_of_neg (by simp [hx])]
      rcases h with ⟨a, ha, hpa⟩
      rcases List.mem_cons.mp ha with rfl | ha'
      · exact absurd hpa hx
      · simp only [List.length_cons]
        rw [ih ⟨a, ha', hpa⟩]

theorem sum_map_eraseP {α : Type _} (pr : α → Bool) (f : α → Nat) :
    ∀ (l : List α) (b : α), l.find? pr = some b →
      ((l.eraseP pr).map f).sum + f b = (l.map f).sum := by
  intro l
  induction l with
  | nil => intro b h; cases h
  | cons x xs ih =>
    intro b h
    by_cases hx : pr x = true
    · rw [List.find?_cons_of_pos _ hx] at h
      cases h
      rw [List.eraseP_cons_of_pos hx]
      simp [Nat.add_comm]
    · rw [List.find?_cons_of_neg _ hx] at h
      rw [List.eraseP_cons_of_neg (by simp [hx])]
      simp only [List.map_cons, List.sum_cons]
      have := ih b h
      omega

theorem find?_filter_stable {α : Type _} (pr keep : α → Bool) :
    ∀ (l : List α) (b : α), l.find? pr = some b → keep b = true →
      (l.filter keep).find? pr = some b := by
  intro l
  induction l with
  | nil => intro b h; cases h
  | cons x xs ih =>
    intro b h hk
    by_cases hx : pr x = true
    · rw [List.find?_cons_of_pos _ hx] at h
      cases h
      rw [List.filter_cons_of_pos hk, List.find?_cons_of_pos _ hx]
    · rw [List.find?_cons_of_neg _ hx] at h
      by_cases hkx : keep x = true
      · rw [List.filter_cons_of_pos hkx, List.find?_cons_of_neg _ hx]
        exact ih b h hk
      · rw [List.filter_cons_of_neg (by simp [hkx])]
        exact ih b h hk

theorem filterMap_eq_filter_of_keep {α : Type _} (g : α → Option α)
    (keep : α → Bool) :
    ∀ l : List α, (∀ a ∈ l, g a = if keep a then some a else none) →
      l.filterMap g = l.filter keep := by
  intro l
  induction l with
  | nil => intro _; rfl
  | cons x xs ih =>
    intro h
    have hx := h x (List.mem_cons_self x xs)
    have hxs : ∀ a ∈ xs, g a = if keep a then some a else none :=
      fun a ha => h a (List.mem_cons_of_mem x ha)
    rw [List.filterMap_cons, hx]
    by_cases hk : keep x = true
    · rw [if_pos hk, List.filter_cons_of_pos hk, ih hxs]
    · rw [if_neg hk, List.filter_cons_of_neg (by simp [hk]), ih hxs]

theorem find?_map_uid (g : Pfs → Pfs) (hg : ∀ p, (g p).uid = p.uid) (u : Nat) :
    ∀ l : List Pfs, (l.map g).find? (fun q => q.uid == u)
      = (l.find? (fun q => q.uid == u)).map g := by
  intro l
  induction l with
  | nil => rfl
  | cons x xs ih =>
    have hgx : ((g x).uid == u) = (x.uid == u) := by rw [hg]
    by_cases hx : (x.uid == u) = true
    · have h1 : List.find? (fun q => q.uid == u) (g x :: List.map g xs)
          = some (g x) :=
        List.find?_cons_of_pos _ (by simpa [hgx] using hx)
      have h2 : List.find? (fun q => q.uid == u) (x :: xs) = some x :=
        List.find?_cons_of_pos _ hx
      rw [List.map_cons, h1, h2]
      rfl
    · have h1 : List.find? (fun q => q.uid == u) (g x :: List.map g xs)
          = List.find? (fun q => q.uid == u) (List.map g xs) :=
        List.find?_cons_of_neg _ (by simp only [hgx]; simpa using hx)
      have h2 : List.find? (fun q => q.uid == u) (x :: xs)
          = List.find? (fun q => q.uid == u) xs :=
        List.find?_cons_of_neg _ hx
      rw [List.map_cons, h1, h2, ih]

theorem mem_nodup_uid_eq {l : List Pfs}
    (h : (l.map (fun p => p.uid)).Nodup)
    {p q : Pfs} (hp : p ∈ l) (hq : q ∈ l) (he : p.uid = q.uid) : p = q :=
  List.inj_on_of_nodup_map h hp hq he

/-! ### The trailing-slot recomputation of `hammer2_pfsfree_scan` -/

theorem nchainsOf_le_length : ∀ slots : List Slot, nchainsOf slots ≤ slots.length := by
  intro slots
  induction slots with
  | nil => exact Nat.le_refl 0
  | cons s rest ih =>
    simp only [nchainsOf, List.length_cons]
    by_cases h : nchainsOf rest = 0
    · rw [if_pos h]
      by_cases hs : (s.hmp).isSome <;> simp [hs]
    · rw [if_neg h]; omega

theorem nchainsOf_empty_above :
    ∀ (slots : List Slot) (i : Nat), nchainsOf slots ≤ i →
      (slots.getD i Slot.empty).hmp = none := by
  intro slots
  induction slots with
  | nil => intro i _; cases i <;> rfl
  | cons s rest ih =>
    intro i hi
    simp only [nchainsOf] at hi
    by_cases h : nchainsOf rest = 0
    · rw [if_pos h] at hi
      by_cases hs : (s.hmp).isSome
      · rw [if_pos hs] at hi
        cases i with
        | zero => omega
        | succ j => simpa using ih j (by omega)
      · rw [if_neg hs] at hi
        cases i with
        | zero =>
          simp only [List.getD_cons_zero]
          cases hhmp : s.hmp with
          | none => rfl
          | some d => rw [hhmp] at hs; simp at hs
        | succ j => simpa using ih j (by omega)
    · rw [if_neg h] at hi
      cases i with
      | zero => omega
      | succ j => simpa using ih j (by omega)

theorem nchainsOf_top_populated :
    ∀ slots : List Slot, nchainsOf slots ≠ 0 →
      ((slots.getD (nchainsOf slots - 1) Slot.empty).hmp).isSome = true := by
  intro slots
  induction slots with
  | nil => intro h; exact absurd rfl h
  | cons s rest ih =>
    intro h
    simp only [nchainsOf] at h ⊢
    by_cases h0 : nchainsOf rest = 0
    · rw [if_pos h0] at h ⊢
      by_cases hs : (s.hmp).isSome
      · rw [if_pos hs]; simpa using hs
      · rw [if_neg hs] at h; exact absurd rfl h
    · rw [if_neg h0] at h ⊢
      have htop := ih h0
      cases hn : nchainsOf rest with
      | zero => exact absurd hn h0
      | succ m =>
        rw [hn] at htop
        simp only [Nat.add_sub_cancel, List.getD_cons_succ]
        simpa using htop

/-! ### Shape facts for registered PFS objects -/

theorem any_replicate_empty (d : DevId) :
    ∀ n : Nat, (List.replicate n Slot.empty).any (fun s => s.hmp == some d) = false := by
  intro n
  induction n with
  | zero => rfl
  | succ m ih => simp only [List.replicate_succ, List.any_cons, ih, Bool.or_false]; rfl

theorem nchainsOf_replicate_empty :
    ∀ n : Nat, nchainsOf (List.replicate n Slot.empty) = 0 := by
  intro n
  induction n with
  | zero => rfl
  | succ m ih => simp only [List.replicate_succ, nchainsOf, ih, if_pos]; rfl

theorem detachSlot_empty (d : DevId) : detachSlot d Slot.empty = Slot.empty := by
  unfold detachSlot
  simp [Slot.empty]

theorem scanStep_unaffected {d : DevId} {p : Pfs} (h : pfsAffected d p = false) :
    scanStep d p = some p := by
  unfold scanStep
  rw [h]
  simp

theorem oneMember_affected (d' : DevId) {d : DevId} {p : Pfs}
    (h : OneMember d' p) : pfsAffected d p = (d' == d) := by
  rcases h with ⟨nm, ty, c, hc, hslots, _⟩
  unfold pfsAffected
  rw [hslots]
  simp only [List.any_cons, any_replicate_empty, Bool.or_false, memberSlot, hc]
  rfl

theorem oneMember_not_affected {d d' : DevId} {p : Pfs} (h : OneMember d' p)
    (hne : d' ≠ d) : pfsAffected d p = false := by
  rw [oneMember_affected d' h]
  simpa using hne

theorem oneMember_scanStep_none {d : DevId} {p : Pfs} (h : OneMember d p) :
    scanStep d p = none := by
  have haff : pfsAffected d p = true := by
    rw [oneMember_affected d h]; simp
  rcases h with ⟨nm, ty, c, hc, hslots, _⟩
  unfold scanStep
  rw [haff]
  have hdet : (detachDev d p).nchains = 0 := by
    unfold detachDev
    rw [hslots]
    simp only [List.map_cons, List.map_replicate, detachSlot_empty]
    have hms : detachSlot d (memberSlot nm ty c) = Slot.empty := by
      unfold detachSlot memberSlot
      simp [hc]
    rw [hms]
    have : (Slot.empty :: List.replicate (HAMMER2_MAXCLUSTER - 1) Slot.empty)
        = List.replicate HAMMER2_MAXCLUSTER Slot.empty := by
      rw [show HAMMER2_MAXCLUSTER = (HAMMER2_MAXCLUSTER - 1) + 1 from rfl]
      rfl
    rw [this, nchainsOf_replicate_empty]
  simp [hdet]

theorem spmp_affected (d' : DevId) {d : DevId} {p : Pfs}
    (h : SpmpShape d' p) : pfsAffected d p = (d' == d) := by
  rcases h with ⟨ty, hslots, _⟩
  unfold pfsAffected
  rw [hslots]
  simp only [List.any_cons, any_replicate_empty, Bool.or_false, spmpSlot0]
  rfl

theorem spmp_scanStep_none {d : DevId} {p : Pfs} (h : SpmpShape d p) :
    scanStep d p = none := by
  have haff : pfsAffected d p = true := by
    rw [spmp_affected d h]; simp
  rcases h with ⟨ty, hslots, _⟩
  unfold scanStep
  rw [haff]
  have hdet : (detachDev d p).nchains = 0 := by
    unfold detachDev
    rw [hslots]
    simp only [List.map_cons, List.map_replicate, detachSlot_empty]
    have hms : detachSlot d (spmpSlot0 d ty) = Slot.empty := by
      unfold detachSlot spmpSlot0
      simp
    rw [hms]
    have : (Slot.empty :: List.replicate (HAMMER2_MAXCLUSTER - 1) Slot.empty)
        = List.replicate HAMMER2_MAXCLUSTER Slot.empty := by
      rw [show HAMMER2_MAXCLUSTER = (HAMMER2_MAXCLUSTER - 1) + 1 from rfl]
      rfl
    rw [this, nchainsOf_replicate_empty]
  simp [hdet]

/-! ### Teardown characterization -/

theorem pfsfree_scan0_eq (st : H2State) (d : DevId)
    (hshape : ∀ p ∈ st.pfslist, ∃ d', OneMember d' p) :
    hammer2_pfsfree_scan st d 0
      = { st with pfslist := st.pfslist.filter (fun p => !(pfsAffected d p)) } := by
  unfold hammer2_pfsfree_scan
  rw [if_pos rfl]
  congr 1
  apply filterMap_eq_filter_of_keep
  intro p hp
  rcases hshape p hp with ⟨d', hm⟩
  by_cases he : d' = d
  · subst he
    rw [oneMember_scanStep_none hm]
    have : pfsAffected d' p = true := by rw [oneMember_affected d' hm]; simp
    rw [this]
    rfl
  · have hna := oneMember_not_affected hm he
    rw [scanStep_unaffected hna, hna]
    rfl

theorem pfsfree_scan1_eq (st : H2State) (d : DevId)
    (hshape : ∀ p ∈ st.spmplist, ∃ d', SpmpShape d' p) :
    hammer2_pfsfree_scan st d 1
      = { st with spmplist := st.spmplist.filter (fun p => !(pfsAffected d p)) } := by
  unfold hammer2_pfsfree_scan
  rw [if_neg (by omega)]
  congr 1
  apply filterMap_eq_filter_of_keep
  intro p hp
  rcases hshape p hp with ⟨d', hm⟩
  by_cases he : d' = d
  · subst he
    rw [spmp_scanStep_none hm]
    have : pfsAffected d' p = true := by rw [spmp_affected d' hm]; simp
    rw [this]
    rfl
  · have hna : pfsAffected d p = false := by
      rw [spmp_affected d' hm]; simpa using he
    rw [scanStep_unaffected hna, hna]
    rfl

theorem helper_dev_noop (st : H2State) (hmp : Dev) (h : hmp.mount_count ≠ 0) :
    hammer2_unmount_helper_dev st hmp = st := by
  unfold hammer2_unmount_helper_dev
  rw [if_pos h]

theorem helper_dev_teardown (st : H2State) (hmp : Dev) (h : hmp.mount_count = 0)
    (hshape0 : ∀ p ∈ st.pfslist, ∃ d', OneMember d' p)
    (hshape1 : ∀ p ∈ st.spmplist, ∃ d', SpmpShape d' p) :
    hammer2_unmount_helper_dev st hmp =
      { mntlist := st.mntlist.eraseP (fun dv => dv.id == hmp.id),
        pfslist := st.pfslist.filter (fun p => !(pfsAffected hmp.id p)),
        spmplist := st.spmplist.filter (fun p => !(pfsAffected hmp.id p)),
        bound := st.bound, nextUid := st.nextUid } := by
  unfold hammer2_unmount_helper_dev
  rw [if_neg (by simp [h])]
  dsimp only
  rw [pfsfree_scan0_eq st hmp.id hshape0]
  rw [pfsfree_scan1_eq _ hmp.id (by simpa using hshape1)]

/-! ### Pointwise lookup and update lemmas -/

theorem find?_eq_of_mem_nodup {α β : Type _} [BEq β] [LawfulBEq β] (f : α → β) :
    ∀ l : List α, (l.map f).Nodup → ∀ a ∈ l,
      l.find? (fun x => f x == f a) = some a := by
  intro l
  induction l with
  | nil => intro _ a ha; cases ha
  | cons x xs ih =>
    intro hnd a ha
    rw [List.map_cons, List.nodup_cons] at hnd
    rcases List.mem_cons.mp ha with rfl | ha'
    · exact List.find?_cons_of_pos _ (by simp)
    · have hne : (f x == f a) = false := by
        have : f a ∈ xs.map f := List.mem_map_of_mem f ha'
        simp only [beq_eq_false_iff_ne, ne_eq]
        intro he
        exact hnd.1 (he ▸ this)
      rw [List.find?_cons_of_neg _ (by simp [hne])]
      exact ih hnd.2 a ha'

theorem pfsalloc_clustered_asserts (st : H2State) (chain : Option Chain)
    (ripdata : Option LabelData) :
    hammer2_pfsalloc st chain ripdata none = none := by
  unfold hammer2_pfsalloc
  rfl

theorem pfsalloc_nochain_match (st : H2State) (rip : LabelData) (fl : DevId)
    (q : Pfs)
    (hfind : st.pfslist.find? (fun p => pfsMatch (some fl) rip p) = some q) :
    hammer2_pfsalloc st none (some rip) (some fl) = some (q.uid, st) := by
  unfold hammer2_pfsalloc
  rw [if_neg (by simp)]
  simp only [hfind]
  rfl

theorem pfsalloc_nochain_create (st : H2State) (rip : LabelData) (fl : DevId)
    (hfind : st.pfslist.find? (fun p => pfsMatch (some fl) rip p) = none) :
    hammer2_pfsalloc st none (some rip) (some fl)
      = some (st.nextUid,
          { st with
            pfslist := st.pfslist ++ [freshPfs st.nextUid (some rip) (some fl)],
            nextUid := st.nextUid + 1 }) := by
  unfold hammer2_pfsalloc
  rw [if_neg (by simp)]
  simp only [hfind]
  rfl

theorem pfsalloc_spmp (st : H2State) (fl : DevId) :
    hammer2_pfsalloc st none none (some fl)
      = some (st.nextUid,
          { st with
            spmplist := st.spmplist ++ [freshPfs st.nextUid none (some fl)],
            nextUid := st.nextUid + 1 }) := by
  unfold hammer2_pfsalloc
  rfl

theorem pfsalloc_chain_match_nonzero (st : H2State) (c : Chain)
    (rip : LabelData) (fl : DevId) (q : Pfs)
    (hfind : st.pfslist.find? (fun p => pfsMatch (some fl) rip p) = some q)
    (hn : q.nchains ≠ 0) :
    hammer2_pfsalloc st (some c) (some rip) (some fl) = none := by
  unfold hammer2_pfsalloc
  rw [if_neg (by simp)]
  simp only [hfind]
  unfold attachChain
  dsimp only
  rw [if_pos hn]

end H2

namespace H2

theorem updatePfsList_append_last (l : List Pfs) (x : Pfs) (f : Pfs → Pfs)
    (h : ∀ q ∈ l, q.uid ≠ x.uid) :
    updatePfsList (l ++ [x]) x.uid f = l ++ [f x] := by
  unfold updatePfsList
  induction l with
  | nil => simp
  | cons y ys ih =>
    simp only [List.cons_append, List.map_cons]
    rw [if_neg (h y (List.mem_cons_self y ys))]
    rw [ih (fun q hq => h q (List.mem_cons_of_mem y hq))]

theorem updatePfsList_map_uid (l : List Pfs) (u : Nat) (f : Pfs → Pfs)
    (hf : ∀ p, (f p).uid = p.uid) :
    (updatePfsList l u f).map (fun p => p.uid) = l.map (fun p => p.uid) := by
  unfold updatePfsList
  rw [List.map_map]
  apply List.map_congr_left
  intro q _
  by_cases hq : q.uid = u <;> simp [hq, hf]

theorem pfsalloc_chain_create (st : H2State) (c : Chain) (rip : LabelData)
    (fl : DevId)
    (hfind : st.pfslist.find? (fun p => pfsMatch (some fl) rip p) = none)
    (hlt : ∀ q ∈ st.pfslist, q.uid < st.nextUid) :
    hammer2_pfsalloc st (some c) (some rip) (some fl)
      = some (st.nextUid,
          { st with
            pfslist := st.pfslist ++ [attachedPfs st.nextUid rip fl c],
            nextUid := st.nextUid + 1 }) := by
  have hne : ∀ q ∈ st.pfslist, q.uid ≠ (freshPfs st.nextUid (some rip) (some fl)).uid :=
    fun q hq => Nat.ne_of_lt (hlt q hq)
  unfold hammer2_pfsalloc
  rw [if_neg (by simp)]
  simp only [hfind]
  show attachChain
      { st with
        pfslist := st.pfslist ++ [freshPfs st.nextUid (some rip) (some fl)],
        nextUid := st.nextUid + 1 }
      (freshPfs st.nextUid (some rip) (some fl)) (some c) (some rip) (some fl)
    = _
  unfold attachChain
  dsimp only
  rw [if_neg (show ¬((freshPfs st.nextUid (some rip) (some fl)).nchains ≠ 0) by
    simp [freshPfs])]
  rw [if_neg (show ¬(((freshPfs st.nextUid (some rip) (some fl)).mp).isSome = true) by
    simp [freshPfs])]
  rw [updatePfsList_append_last st.pfslist _ _ hne]
  rfl

end H2

namespace H2

theorem pfsMatch_elim {fl : DevId} {rip : LabelData} {p : Pfs}
    (h : pfsMatch (some fl) rip p = true) :
    p.force_local = some fl ∧ p.name0 = some rip.filename := by
  unfold pfsMatch at h
  simp only [Bool.and_eq_true, Bool.or_eq_true] at h
  rcases h with ⟨hfl, h2⟩
  refine ⟨(eq_of_beq hfl).symm, ?_⟩
  rcases h2 with h2 | h2
  · exact absurd (eq_of_beq h2.1) (by simp)
  · exact eq_of_beq h2.2

theorem pfsMatch_self (d : DevId) (L : LabelData) (p : Pfs)
    (hfl : p.force_local = some d) (hn : p.name0 = some L.filename) :
    pfsMatch (some d) L p = true := by
  unfold pfsMatch
  simp [hfl, hn]

theorem update_pmps_go_spec (d : DevId) :
    ∀ (labels : List LabelData) (st stR : H2State),
      update_pmps_go d (some d) st labels = some stR →
      (∀ p ∈ st.pfslist, p.force_local = some d → NewProp d p) →
      (∀ p ∈ st.pfslist ++ st.spmplist, p.uid < st.nextUid) →
      ∃ news : List Pfs,
        stR.mntlist = st.mntlist ∧
        stR.spmplist = st.spmplist ∧
        stR.bound = st.bound ∧
        stR.pfslist = st.pfslist ++ news ∧
        st.nextUid ≤ stR.nextUid ∧
        (∀ p ∈ news, NewProp d p ∧ st.nextUid ≤ p.uid ∧ p.uid < stR.nextUid) ∧
        (news.map (fun p => p.uid)).Nodup ∧
        (∀ L ∈ labels, L.chainOk = true →
          ∃ p ∈ st.pfslist ++ news, pfsMatch (some d) L p = true) := by
  intro labels
  induction labels with
  | nil =>
    intro st stR hrun _ _
    unfold update_pmps_go at hrun
    cases hrun
    exact ⟨[], rfl, rfl, rfl, by simp, Nat.le_refl _, by simp, by simp, by simp⟩
  | cons L rest ih =>
    intro st stR hrun hnew hlt
    unfold update_pmps_go at hrun
    by_cases hok : L.chainOk = true
    · rw [if_pos hok] at hrun
      cases hfind : st.pfslist.find? (fun p => pfsMatch (some d) L p) with
      | some q =>
        exfalso
        have hq := List.find?_some hfind
        have hqm : q ∈ st.pfslist := List.mem_of_find?_eq_some hfind
        have hqfl := (pfsMatch_elim hq).1
        have hqnew := hnew q hqm hqfl
        rcases hqnew with ⟨_, _, _, _, hom⟩
        rcases hom with ⟨nm, ty, c, _, _, hnc⟩
        rw [pfsalloc_chain_match_nonzero st _ L d q hfind (by omega)] at hrun
        cases hrun
      | none =>
        rw [pfsalloc_chain_create st _ L d hfind
          (fun q hq => hlt q (List.mem_append_left _ hq))] at hrun
        set a : Pfs := attachedPfs st.nextUid L d { hmp := d, inode_count := L.inode_count } with ha
        set st1 : H2State :=
          { st with pfslist := st.pfslist ++ [a], nextUid := st.nextUid + 1 } with hst1
        have hau : a.uid = st.nextUid := by rw [ha]; rfl
        have h1 : st1.nextUid = st.nextUid + 1 := by rw [hst1]
        have haNew : NewProp d a := by
          refine ⟨rfl, rfl, rfl, rfl, L.filename, HAMMER2_PFSTYPE_MASTER,
            { hmp := d, inode_count := L.inode_count }, rfl, rfl, rfl⟩
        have hrun' : update_pmps_go d (some d) st1 rest = some stR := hrun
        have hnew1 : ∀ p ∈ st1.pfslist, p.force_local = some d → NewProp d p := by
          intro p hp hpfl
          rw [hst1] at hp
          rcases List.mem_append.mp hp with hp | hp
          · exact hnew p hp hpfl
          · rcases List.mem_singleton.mp hp with rfl
            exact haNew
        have hlt1 : ∀ p ∈ st1.pfslist ++ st1.spmplist, p.uid < st1.nextUid := by
          intro p hp
          rw [hst1] at hp
          rw [h1]
          rcases List.mem_append.mp hp with hp | hp
          · rcases List.mem_append.mp hp with hp | hp
            · exact Nat.lt_succ_of_lt (hlt p (List.mem_append_left _ hp))
            · rcases List.mem_singleton.mp hp with rfl
              omega
          · exact Nat.lt_succ_of_lt (hlt p (List.mem_append_right _ hp))
        rcases ih st1 stR hrun' hnew1 hlt1 with
          ⟨news2, hm, hs, hb, hpl, hnx, hprops, hnd, hcov⟩
        rw [h1] at hnx
        refine ⟨a :: news2, ?_, ?_, ?_, ?_, ?_, ?_, ?_, ?_⟩
        · rw [hm, hst1]
        · rw [hs, hst1]
        · rw [hb, hst1]
        · rw [hpl, hst1]; simp
        · omega
        · intro p hp
          rcases List.mem_cons.mp hp with rfl | hp
          · exact ⟨haNew, by omega, by omega⟩
          · rcases hprops p hp with ⟨hN, hlo, hhi⟩
            rw [h1] at hlo
            exact ⟨hN, by omega, hhi⟩
        · rw [List.map_cons, List.nodup_cons]
          refine ⟨?_, hnd⟩
          intro hmem
          rcases List.mem_map.mp hmem with ⟨p, hp, hpe⟩
          rcases hprops p hp with ⟨_, hlo, _⟩
          rw [h1] at hlo
          omega
        · intro L2 hL2 hokL2
          rcases List.mem_cons.mp hL2 with rfl | hL2
          · refine ⟨a, List.mem_append_right _ (List.mem_cons_self _ _), ?_⟩
            refine pfsMatch_self d L2 a rfl ?_
            rw [ha]
            rfl
          · rcases hcov L2 hL2 hokL2 with ⟨p, hp, hpm⟩
            refine ⟨p, ?_, hpm⟩
            rw [hst1] at hp
            rcases List.mem_append.mp hp with hp | hp
            · rcases List.mem_append.mp hp with hp | hp
              · exact List.mem_append_left _ hp
              · rcases List.mem_singleton.mp hp with rfl
                exact List.mem_append_right _ (List.mem_cons_self _ _)
            · exact List.mem_append_right _ (List.mem_cons_of_mem _ hp)
    · rw [if_neg hok] at hrun
      rcases ih st stR hrun hnew hlt with
        ⟨news, hm, hs, hb, hpl, hnx, hprops, hnd, hcov⟩
      refine ⟨news, hm, hs, hb, hpl, hnx, hprops, hnd, ?_⟩
      intro L2 hL2 hokL2
      rcases List.mem_cons.mp hL2 with rfl | hL2
      · exact absurd hokL2 hok
      · exact hcov L2 hL2 hokL2

end H2

namespace H2

theorem nat_sum_map_zero {α : Type _} (f : α → Nat) :
    ∀ l : List α, (l.map f).sum = 0 → ∀ a ∈ l, f a = 0 := by
  intro l
  induction l with
  | nil => intro _ a ha; cases ha
  | cons x xs ih =>
    intro h a ha
    simp only [List.map_cons, List.sum_cons] at h
    rcases List.mem_cons.mp ha with rfl | ha'
    · omega
    · exact ih (by omega) a ha'

theorem mem_eraseP_key_ne {α β : Type _} [BEq β] [LawfulBEq β] (f : α → β) :
    ∀ l : List α, (l.map f).Nodup → ∀ x ∈ l,
      ∀ a ∈ l.eraseP (fun a => f a == f x), f a ≠ f x := by
  intro l
  induction l with
  | nil => intro _ x hx; cases hx
  | cons y ys ih =>
    intro hnd x hx a ha
    rw [List.map_cons, List.nodup_cons] at hnd
    by_cases hy : (f y == f x) = true
    · rw [List.eraseP_cons_of_pos (p := fun a => f a == f x) hy] at ha
      intro he
      have hyx : f y = f x := eq_of_beq hy
      exact hnd.1 (hyx ▸ he ▸ List.mem_map_of_mem f ha)
    · rw [List.eraseP_cons_of_neg (p := fun a => f a == f x) (by simpa using hy)] at ha
      have hxys : x ∈ ys := by
        rcases List.mem_cons.mp hx with rfl | h
        · exact absurd (by simp) hy
        · exact h
      rcases List.mem_cons.mp ha with rfl | ha'
      · simpa using hy
      · exact ih hnd.2 x hxys a ha'

theorem oneMember_load {d : DevId} {p : Pfs} (h : OneMember d p) (x : DevId) :
    (clusterChains p).countP (fun c => c.hmp == x) = if d = x then 1 else 0 := by
  rcases h with ⟨nm, ty, c, hc, hs, hn⟩
  unfold clusterChains
  rw [hs, hn]
  by_cases hdx : d = x
  · simp [memberSlot, List.countP_cons, hc, hdx]
  · simp [memberSlot, List.countP_cons, hc, hdx]

theorem findPfs_of_mem (st : H2State) (p : Pfs)
    (hnd : (st.pfslist.map (fun q => q.uid)).Nodup) (hp : p ∈ st.pfslist) :
    findPfs st p.uid = some p :=
  find?_eq_of_mem_nodup (fun q : Pfs => q.uid) st.pfslist hnd p hp

theorem inv0_teardown (env : DevId → Media) (st : H2State) (hmp : Dev)
    (hinv : Inv0 env st) (hmem : hmp ∈ st.mntlist) (h0 : hmp.mount_count = 0) :
    Inv0 env (hammer2_unmount_helper_dev st hmp) := by
  have hshape0 : ∀ p ∈ st.pfslist, ∃ d', OneMember d' p := by
    intro p hp
    rcases hinv.pfsShape p hp with ⟨d', _, _, _, _, hom⟩
    exact ⟨d', hom⟩
  have hshape1 : ∀ p ∈ st.spmplist, ∃ d', SpmpShape d' p := by
    intro p hp
    rcases hinv.spmpShape p hp with ⟨d', _, _, _, _, _, hsh⟩
    exact ⟨d', hsh⟩
  rw [helper_dev_teardown st hmp h0 hshape0 hshape1]
  have hpfsNodup : (st.pfslist.map (fun q => q.uid)).Nodup := by
    have := hinv.uidNodup
    rw [List.map_append] at this
    exact this.of_append_left
  -- no bound PFS depends on hmp
  have hzero : boundLoad st hmp.id = 0 := by
    have := hinv.countEq hmp hmem
    omega
  have hBoundSafe : ∀ b ∈ st.bound, ∃ pb ∈ st.pfslist, pb.uid = b.2 ∧
      pb.mp = some b.1 ∧ ∃ dpb, dpb ≠ hmp.id ∧ OneMember dpb pb := by
    intro b hb
    rcases hinv.boundPfs b hb with ⟨pb, hpbm, hpbu, hpbmp⟩
    rcases hinv.pfsShape pb hpbm with ⟨dpb, hdin, hfl, hsp, hrefs, hom⟩
    refine ⟨pb, hpbm, hpbu, hpbmp, dpb, ?_, hom⟩
    intro he
    have hterm : pfsLoad st b.2 hmp.id = 0 :=
      nat_sum_map_zero _ st.bound hzero b hb
    rw [← hpbu] at hterm
    unfold pfsLoad at hterm
    rw [findPfs_of_mem st pb hpfsNodup hpbm] at hterm
    dsimp only at hterm
    rw [oneMember_load hom hmp.id] at hterm
    rw [if_pos he] at hterm
    cases hterm
  constructor
  case devNodup =>
    exact hinv.devNodup.sublist
      (List.Sublist.map _ (List.eraseP_sublist st.mntlist))
  case devLocal =>
    intro dv hdv
    exact hinv.devLocal dv ((List.eraseP_sublist st.mntlist).subset hdv)
  case uidNodup =>
    exact hinv.uidNodup.sublist
      (List.Sublist.map _
        (List.Sublist.append (List.filter_sublist _) (List.filter_sublist _)))
  case uidLt =>
    intro p hp
    apply hinv.uidLt
    rcases List.mem_append.mp hp with hp | hp
    · exact List.mem_append_left _ (List.mem_filter.mp hp).1
    · exact List.mem_append_right _ (List.mem_filter.mp hp).1
  case pfsShape =>
    intro p hp
    have hp' := List.mem_filter.mp hp
    rcases hinv.pfsShape p hp'.1 with ⟨d', hdin, hfl, hsp, hrefs, hom⟩
    have hdne : d' ≠ hmp.id := by
      intro he
      have : pfsAffected hmp.id p = true := by
        rw [oneMember_affected d' hom]
        simp [he]
      rw [this] at hp'
      simp at hp'
    refine ⟨d', ?_, hfl, hsp, hrefs, hom⟩
    rcases List.mem_map.mp hdin with ⟨dv, hdvm, hdvid⟩
    exact List.mem_map.mpr ⟨dv,
      (List.mem_eraseP_of_neg (by simp [hdvid, hdne])).mpr hdvm, hdvid⟩
  case labelCover =>
    intro dv hdv L hL hok
    have hdvm : dv ∈ st.mntlist := (List.eraseP_sublist st.mntlist).subset hdv
    have hdvne : dv.id ≠ hmp.id :=
      mem_eraseP_key_ne (fun d => d.id) st.mntlist hinv.devNodup hmp hmem dv hdv
    rcases hinv.labelCover dv hdvm L hL hok with ⟨p, hpm, hpfl, hpn⟩
    rcases hinv.pfsShape p hpm with ⟨dp, _, hfl2, _, _, hom⟩
    have hdp : dp = dv.id := by
      rw [hpfl] at hfl2
      exact (Option.some_inj.mp hfl2).symm
    refine ⟨p, List.mem_filter.mpr ⟨hpm, ?_⟩, hpfl, hpn⟩
    rw [oneMember_not_affected hom (by rw [hdp]; exact hdvne)]
    rfl
  case countEq =>
    intro dv hdv
    have hdvm : dv ∈ st.mntlist := (List.eraseP_sublist st.mntlist).subset hdv
    have heq := hinv.countEq dv hdvm
    rw [heq]
    unfold boundLoad
    apply congrArg
    apply List.map_congr_left
    intro b hb
    rcases hBoundSafe b hb with ⟨pb, hpbm, hpbu, _, dpb, hdne, hom⟩
    unfold pfsLoad findPfs
    rw [← hpbu]
    have hold : st.pfslist.find? (fun q => q.uid == pb.uid) = some pb :=
      findPfs_of_mem st pb hpfsNodup hpbm
    have hkeep : (!(pfsAffected hmp.id pb)) = true := by
      rw [oneMember_not_affected hom hdne]
      rfl
    rw [find?_filter_stable _ _ st.pfslist pb hold hkeep]
    rw [hold]
  case midNodup => exact hinv.midNodup
  case bUidNodup => exact hinv.bUidNodup
  case boundPfs =>
    intro b hb
    rcases hBoundSafe b hb with ⟨pb, hpbm, hpbu, hpbmp, dpb, hdne, hom⟩
    refine ⟨pb, List.mem_filter.mpr ⟨hpbm, ?_⟩, hpbu, hpbmp⟩
    rw [oneMember_not_affected hom hdne]
    rfl
  case spmpShape =>
    intro p hp
    have hp' := List.mem_filter.mp hp
    rcases hinv.spmpShape p hp'.1 with ⟨d', hdin, hfl, hsp, hmpn, hrefs, hsh⟩
    have hdne : d' ≠ hmp.id := by
      intro he
      have : pfsAffected hmp.id p = true := by
        rw [spmp_affected d' hsh]
        simp [he]
      rw [this] at hp'
      simp at hp'
    refine ⟨d', ?_, hfl, hsp, hmpn, hrefs, hsh⟩
    rcases List.mem_map.mp hdin with ⟨dv, hdvm, hdvid⟩
    exact List.mem_map.mpr ⟨dv,
      (List.mem_eraseP_of_neg (by simp [hdvid, hdne])).mpr hdvm, hdvid⟩

end H2

namespace H2

theorem find?_count_zero {l : List Dev} {dev : Dev}
    (h : l.find? (fun dv => dv.mount_count == 0) = some dev) :
    dev ∈ l ∧ dev.mount_count = 0 :=
  ⟨List.mem_of_find?_eq_some h, by simpa using List.find?_some h⟩

theorem inv0_shapes0 {env : DevId → Media} {st : H2State} (hinv : Inv0 env st) :
    ∀ p ∈ st.pfslist, ∃ d', OneMember d' p := by
  intro p hp
  rcases hinv.pfsShape p hp with ⟨d', _, _, _, _, hom⟩
  exact ⟨d', hom⟩

theorem inv0_shapes1 {env : DevId → Media} {st : H2State} (hinv : Inv0 env st) :
    ∀ p ∈ st.spmplist, ∃ d', SpmpShape d' p := by
  intro p hp
  rcases hinv.spmpShape p hp with ⟨d', _, _, _, _, _, hsh⟩
  exact ⟨d', hsh⟩

theorem sweepGo_spec (env : DevId → Media) :
    ∀ (n : Nat) (st : H2State), Inv0 env st → st.mntlist.length ≤ n →
      Inv0 env (sweepGo n st) ∧
      (sweepGo n st).mntlist.find? (fun dv => dv.mount_count == 0) = none := by
  intro n
  induction n with
  | zero =>
    intro st hinv hlen
    have hnil : st.mntlist = [] := List.eq_nil_of_length_eq_zero (by omega)
    unfold sweepGo
    exact ⟨hinv, by rw [hnil]; rfl⟩
  | succ m ih =>
    intro st hinv hlen
    unfold sweepGo
    cases hf : st.mntlist.find? (fun dv => dv.mount_count == 0) with
    | none => exact ⟨hinv, hf⟩
    | some dev =>
      rcases find?_count_zero hf with ⟨hmem, h0⟩
      have hinv' := inv0_teardown env st dev hinv hmem h0
      have hlen' : (hammer2_unmount_helper_dev st dev).mntlist.length ≤ m := by
        rw [helper_dev_teardown st dev h0 (inv0_shapes0 hinv) (inv0_shapes1 hinv)]
        have := length_eraseP_of_exists (fun dv => dv.id == dev.id) st.mntlist
          ⟨dev, hmem, by simp⟩
        simp only
        omega
      exact ih _ hinv' hlen'

theorem inv_sweepDevs (env : DevId → Media) (st : H2State) (hinv : Inv0 env st) :
    Inv env (sweepDevs st) := by
  rcases sweepGo_spec env st.mntlist.length st hinv (Nat.le_refl _) with ⟨h1, h2⟩
  refine ⟨h1, ?_⟩
  intro dv hdv
  have := List.find?_eq_none.mp h2 dv hdv
  simpa using this

theorem decCountsFor_ids (mnt : List Dev) (p : Pfs) :
    (decCountsFor mnt p).map (fun dv => dv.id) = mnt.map (fun dv => dv.id) := by
  unfold decCountsFor
  rw [List.map_map]
  rfl

theorem incCountsFor_ids (mnt : List Dev) (p : Pfs) :
    (incCountsFor mnt p).map (fun dv => dv.id) = mnt.map (fun dv => dv.id) := by
  unfold incCountsFor
  rw [List.map_map]
  rfl

theorem inv0_presweep (env : DevId → Media) (st : H2State) (inp : UnmountIn)
    (hinv : Inv env st) (b : MountId × Nat)
    (hfind : st.bound.find? (fun x => x.1 == inp.mid) = some b)
    (pb : Pfs) (hpbm : pb ∈ st.pfslist) (hpbu : pb.uid = b.2) :
    Inv0 env { mntlist := decCountsFor st.mntlist pb, pfslist := st.pfslist,
               spmplist := st.spmplist,
               bound := st.bound.eraseP (fun x => x.1 == inp.mid),
               nextUid := st.nextUid } := by
  have hpfsNodup : (st.pfslist.map (fun q => q.uid)).Nodup := by
    have := hinv.uidNodup
    rw [List.map_append] at this
    exact this.of_append_left
  constructor
  · -- devNodup
    show ((decCountsFor st.mntlist pb).map (fun dv => dv.id)).Nodup
    rw [decCountsFor_ids]
    exact hinv.devNodup
  · -- devLocal
    intro dv hdv
    unfold decCountsFor at hdv
    rcases List.mem_map.mp hdv with ⟨dv0, hdv0, rfl⟩
    exact hinv.devLocal dv0 hdv0
  · -- uidNodup
    exact hinv.uidNodup
  · -- uidLt
    exact hinv.uidLt
  · -- pfsShape
    intro p hp
    rcases hinv.pfsShape p hp with ⟨d', hdin', hfl', hsp', hrefs', hom'⟩
    refine ⟨d', ?_, hfl', hsp', hrefs', hom'⟩
    unfold devIds at hdin' ⊢
    rw [decCountsFor_ids]
    exact hdin'
  · -- labelCover
    intro dv hdv L hL hok
    unfold decCountsFor at hdv
    rcases List.mem_map.mp hdv with ⟨dv0, hdv0, rfl⟩
    exact hinv.labelCover dv0 hdv0 L hL hok
  · -- countEq
    intro dv hdv
    unfold decCountsFor at hdv
    rcases List.mem_map.mp hdv with ⟨dv0, hdv0, rfl⟩
    have hload : ∀ x, pfsLoad st b.2 x
        = (clusterChains pb).countP (fun c => c.hmp == x) := by
      intro x
      unfold pfsLoad findPfs
      rw [← hpbu,
        find?_eq_of_mem_nodup (fun q : Pfs => q.uid) st.pfslist hpfsNodup pb hpbm]
    have hsum := sum_map_eraseP (fun x => x.1 == inp.mid)
      (fun x => pfsLoad st x.2 dv0.id) st.bound b hfind
    have hEq := hinv.countEq dv0 hdv0
    unfold boundLoad at hEq
    -- new boundLoad over the shrunk bound list, loads unchanged
    have hloads_same : ∀ x ∈ st.bound.eraseP (fun x => x.1 == inp.mid),
        pfsLoad
          { mntlist := decCountsFor st.mntlist pb, pfslist := st.pfslist,
            spmplist := st.spmplist,
            bound := st.bound.eraseP (fun y => y.1 == inp.mid),
            nextUid := st.nextUid } x.2 dv0.id
        = pfsLoad st x.2 dv0.id := by
      intro x _
      unfold pfsLoad findPfs
      rfl
    unfold boundLoad
    dsimp only
    rw [List.map_congr_left hloads_same]
    dsimp only at hsum
    rw [hload dv0.id] at hsum
    omega
  · -- midNodup
    exact hinv.midNodup.sublist (List.Sublist.map _ (List.eraseP_sublist _))
  · -- bUidNodup
    exact hinv.bUidNodup.sublist (List.Sublist.map _ (List.eraseP_sublist _))
  · -- boundPfs
    intro b2 hb2
    exact hinv.boundPfs b2 ((List.eraseP_sublist _).subset hb2)
  · -- spmpShape
    intro p hp
    rcases hinv.spmpShape p hp with ⟨d', hdin', h1, h2, h3, h4, h5⟩
    refine ⟨d', ?_, h1, h2, h3, h4, h5⟩
    unfold devIds at hdin' ⊢
    rw [decCountsFor_ids]
    exact hdin'

theorem inv_unmount (env : DevId → Media) (st : H2State) (inp : UnmountIn)
    (hinv : Inv env st) : Inv env (hammer2_unmount st inp).2 := by
  unfold hammer2_unmount
  cases hfind : st.bound.find? (fun b => b.1 == inp.mid) with
  | none => exact hinv
  | some b =>
    by_cases hflush : (!inp.flushOk && !inp.force) = true
    · rw [hflush]
      exact hinv
    · rw [Bool.not_eq_true] at hflush
      rw [hflush]
      show Inv env (hammer2_unmount_helper_pmp st inp.mid b.2)
      have hbmem : b ∈ st.bound := List.mem_of_find?_eq_some hfind
      rcases hinv.boundPfs b hbmem with ⟨pb, hpbm, hpbu, hpbmp⟩
      rcases hinv.pfsShape pb hpbm with ⟨dpb, hdin, hfl, hsp, hrefs, hom⟩
      have hpfsNodup : (st.pfslist.map (fun q => q.uid)).Nodup := by
        have := hinv.uidNodup
        rw [List.map_append] at this
        exact this.of_append_left
      unfold hammer2_unmount_helper_pmp
      have hfindPb : findPfs { st with bound := st.bound.eraseP (fun x => x.1 == inp.mid) } b.2
          = some pb := by
        unfold findPfs
        rw [← hpbu]
        exact find?_eq_of_mem_nodup (fun q : Pfs => q.uid) st.pfslist hpfsNodup pb hpbm
      dsimp only
      rw [hfindPb]
      dsimp only
      apply inv_sweepDevs
      exact inv0_presweep env st inp hinv b hfind pb hpbm hpbu
end H2

namespace H2

theorem oneMember_unique {d1 d2 : DevId} {p : Pfs}
    (h1 : OneMember d1 p) (h2 : OneMember d2 p) : d1 = d2 := by
  rcases h1 with ⟨nm1, ty1, c1, hc1, hs1, _⟩
  rcases h2 with ⟨nm2, ty2, c2, hc2, hs2, _⟩
  rw [hs1] at hs2
  have hhead := List.head_eq_of_cons_eq hs2
  have hhmp : c1.hmp = c2.hmp := by
    simpa [memberSlot] using congrArg Slot.hmp hhead
  rw [← hc1, ← hc2]
  exact hhmp

theorem updEntry_fields (mid : MountId) (u : Nat) (p : Pfs) :
    ((if p.uid = u then { p with mp := some mid } else p) : Pfs).uid = p.uid ∧
    ((if p.uid = u then { p with mp := some mid } else p) : Pfs).force_local = p.force_local ∧
    ((if p.uid = u then { p with mp := some mid } else p) : Pfs).name0 = p.name0 ∧
    ((if p.uid = u then { p with mp := some mid } else p) : Pfs).slots = p.slots ∧
    ((if p.uid = u then { p with mp := some mid } else p) : Pfs).nchains = p.nchains ∧
    ((if p.uid = u then { p with mp := some mid } else p) : Pfs).isSpmp = p.isSpmp ∧
    ((if p.uid = u then { p with mp := some mid } else p) : Pfs).iroot_refs = p.iroot_refs := by
  by_cases hp : p.uid = u <;> simp [hp, Pfs.name0]

theorem oneMember_slots_congr {d : DevId} {p p' : Pfs}
    (hs : p'.slots = p.slots) (hn : p'.nchains = p.nchains)
    (h : OneMember d p) : OneMember d p' := by
  rcases h with ⟨nm, ty, c, hc, hsl, hnc⟩
  exact ⟨nm, ty, c, hc, by rw [hs, hsl], by rw [hn, hnc]⟩

theorem inv_bind (env : DevId → Media) (st : H2State) (hinv : Inv0 env st)
    (q : Pfs) (dq : DevId) (hq : q ∈ st.pfslist) (hql : OneMember dq q)
    (hqmp : q.mp = none) (mid : MountId)
    (hmid : mid ∉ st.bound.map Prod.fst)
    (hpos : ∀ dv ∈ st.mntlist, dv.mount_count ≠ 0 ∨ dv.id = dq) :
    Inv env (hammer2_mount_helper st mid q.uid) := by
  have hpfsNodup : (st.pfslist.map (fun q => q.uid)).Nodup := by
    have := hinv.uidNodup
    rw [List.map_append] at this
    exact this.of_append_left
  have hguid : ∀ p : Pfs,
      ((if p.uid = q.uid then { p with mp := some mid } else p) : Pfs).uid = p.uid :=
    fun p => (updEntry_fields mid q.uid p).1
  have hnotbound : ∀ b ∈ st.bound, b.2 ≠ q.uid := by
    intro b hb he
    rcases hinv.boundPfs b hb with ⟨pb, hpbm, hpbu, hpbmp⟩
    have : pb = q := mem_nodup_uid_eq hpfsNodup hpbm hq (by omega)
    rw [this, hqmp] at hpbmp
    cases hpbmp
  unfold hammer2_mount_helper
  dsimp only
  have hfind1 : findPfs
      { st with
        pfslist := updatePfsList st.pfslist q.uid (fun p => { p with mp := some mid }),
        bound := st.bound ++ [(mid, q.uid)] } q.uid
      = some ({ q with mp := some mid } : Pfs) := by
    unfold findPfs updatePfsList
    have := find?_map_uid
      (fun p => if p.uid = q.uid then { p with mp := some mid } else p) hguid
      q.uid st.pfslist
    rw [this]
    have hfq : st.pfslist.find? (fun x => x.uid == q.uid) = some q :=
      find?_eq_of_mem_nodup (fun q : Pfs => q.uid) st.pfslist hpfsNodup q hq
    rw [hfq]
    simp
  rw [hfind1]
  dsimp only
  set q' : Pfs := ({ q with mp := some mid } : Pfs) with hq'
  have homq' : OneMember dq q' := oneMember_slots_congr rfl rfl hql
  have hload_q' : ∀ x, (clusterChains q').countP (fun c => c.hmp == x)
      = if dq = x then 1 else 0 := oneMember_load homq'
  have hloads_old : ∀ b ∈ st.bound, ∀ x,
      pfsLoad
        { mntlist := incCountsFor st.mntlist q',
          pfslist := updatePfsList st.pfslist q.uid (fun p => { p with mp := some mid }),
          spmplist := st.spmplist, bound := st.bound ++ [(mid, q.uid)],
          nextUid := st.nextUid } b.2 x
      = pfsLoad st b.2 x := by
    intro b hb x
    rcases hinv.boundPfs b hb with ⟨pb, hpbm, hpbu, hpbmp⟩
    have hfpb : st.pfslist.find? (fun x => x.uid == pb.uid) = some pb :=
      find?_eq_of_mem_nodup (fun q : Pfs => q.uid) st.pfslist hpfsNodup pb hpbm
    unfold pfsLoad findPfs updatePfsList
    dsimp only
    rw [← hpbu]
    rw [find?_map_uid
      (fun p => if p.uid = q.uid then { p with mp := some mid } else p) hguid
      pb.uid st.pfslist]
    rw [hfpb]
    simp only [Option.map_some']
    have hne : pb.uid ≠ q.uid := by
      rw [hpbu]
      exact hnotbound b hb
    rw [if_neg hne]
  refine ⟨⟨?_, ?_, ?_, ?_, ?_, ?_, ?_, ?_, ?_, ?_, ?_⟩, ?_⟩
  · -- devNodup
    show ((incCountsFor st.mntlist q').map (fun dv => dv.id)).Nodup
    rw [incCountsFor_ids]
    exact hinv.devNodup
  · -- devLocal
    intro dv hdv
    unfold incCountsFor at hdv
    rcases List.mem_map.mp hdv with ⟨dv0, hdv0, rfl⟩
    exact hinv.devLocal dv0 hdv0
  · -- uidNodup
    show ((updatePfsList st.pfslist q.uid (fun p => { p with mp := some mid })
        ++ st.spmplist).map (fun p => p.uid)).Nodup
    rw [List.map_append]
    rw [updatePfsList_map_uid st.pfslist q.uid
      (fun p => { p with mp := some mid }) (fun p => rfl)]
    rw [← List.map_append]
    exact hinv.uidNodup
  · -- uidLt
    intro p hp
    rcases List.mem_append.mp hp with hp | hp
    · unfold updatePfsList at hp
      rcases List.mem_map.mp hp with ⟨p0, hp0, rfl⟩
      rw [hguid p0]
      exact hinv.uidLt p0 (List.mem_append_left _ hp0)
    · exact hinv.uidLt p (List.mem_append_right _ hp)
  · -- pfsShape
    intro p hp
    unfold updatePfsList at hp
    rcases List.mem_map.mp hp with ⟨p0, hp0, rfl⟩
    rcases hinv.pfsShape p0 hp0 with ⟨d', hdin, hfl, hsp, hrefs, hom⟩
    rcases updEntry_fields mid q.uid p0 with ⟨_, hufl, _, hus, hun, husp, hurefs⟩
    refine ⟨d', ?_, by rw [hufl]; exact hfl, by rw [husp]; exact hsp,
      by rw [hurefs]; exact hrefs, oneMember_slots_congr hus hun hom⟩
    unfold devIds at hdin ⊢
    dsimp only
    rw [incCountsFor_ids]
    exact hdin
  · -- labelCover
    intro dv hdv L hL hok
    unfold incCountsFor at hdv
    rcases List.mem_map.mp hdv with ⟨dv0, hdv0, rfl⟩
    rcases hinv.labelCover dv0 hdv0 L hL hok with ⟨p, hpm, hpfl, hpn⟩
    refine ⟨(if p.uid = q.uid then { p with mp := some mid } else p), ?_, ?_, ?_⟩
    · unfold updatePfsList
      exact List.mem_map_of_mem _ hpm
    · rw [(updEntry_fields mid q.uid p).2.1]
      exact hpfl
    · rw [(updEntry_fields mid q.uid p).2.2.1]
      exact hpn
  · -- countEq
    intro dv hdv
    unfold incCountsFor at hdv
    rcases List.mem_map.mp hdv with ⟨dv0, hdv0, rfl⟩
    unfold boundLoad
    dsimp only
    rw [List.map_append, List.sum_append]
    rw [List.map_congr_left (fun b hb => hloads_old b hb dv0.id)]
    have hEq := hinv.countEq dv0 hdv0
    unfold boundLoad at hEq
    have hlast : pfsLoad
        { mntlist := incCountsFor st.mntlist q',
          pfslist := updatePfsList st.pfslist q.uid (fun p => { p with mp := some mid }),
          spmplist := st.spmplist, bound := st.bound ++ [(mid, q.uid)],
          nextUid := st.nextUid } q.uid dv0.id
        = (clusterChains q').countP (fun c => c.hmp == dv0.id) := by
      unfold pfsLoad
      rw [show findPfs
          { mntlist := incCountsFor st.mntlist q',
            pfslist := updatePfsList st.pfslist q.uid (fun p => { p with mp := some mid }),
            spmplist := st.spmplist, bound := st.bound ++ [(mid, q.uid)],
            nextUid := st.nextUid } q.uid = some q' from hfind1]
    simp only [List.map_cons, List.map_nil, List.sum_cons, List.sum_nil, hlast]
    omega
  · -- midNodup
    show ((st.bound ++ [(mid, q.uid)]).map Prod.fst).Nodup
    rw [List.map_append]
    rw [List.nodup_append]
    exact ⟨hinv.midNodup, List.nodup_singleton _,
      fun a ha hb => by
        rcases List.mem_singleton.mp hb with rfl
        exact hmid ha⟩
  · -- bUidNodup
    show ((st.bound ++ [(mid, q.uid)]).map Prod.snd).Nodup
    rw [List.map_append]
    rw [List.nodup_append]
    refine ⟨hinv.bUidNodup, List.nodup_singleton _, fun a ha hb => ?_⟩
    rcases List.mem_singleton.mp hb with rfl
    rcases List.mem_map.mp ha with ⟨b, hbm, hbe⟩
    exact hnotbound b hbm hbe
  · -- boundPfs
    intro b hb
    rcases List.mem_append.mp hb with hb | hb
    · rcases hinv.boundPfs b hb with ⟨pb, hpbm, hpbu, hpbmp⟩
      refine ⟨(if pb.uid = q.uid then { pb with mp := some mid } else pb), ?_, ?_, ?_⟩
      · unfold updatePfsList
        exact List.mem_map_of_mem _ hpbm
      · rw [hguid pb]
        exact hpbu
      · rw [if_neg (by rw [hpbu]; exact hnotbound b hb)]
        exact hpbmp
    · rcases List.mem_singleton.mp hb with rfl
      refine ⟨q', ?_, rfl, rfl⟩
      unfold updatePfsList
      have : q' = (if q.uid = q.uid then ({ q with mp := some mid } : Pfs) else q) := by
        rw [if_pos rfl]
      rw [this]
      exact List.mem_map_of_mem _ hq
  · -- spmpShape
    intro p hp
    rcases hinv.spmpShape p hp with ⟨d', hdin, h1, h2, h3, h4, h5⟩
    refine ⟨d', ?_, h1, h2, h3, h4, h5⟩
    unfold devIds at hdin ⊢
    dsimp only
    rw [incCountsFor_ids]
    exact hdin
  · -- countPos
    intro dv hdv
    unfold incCountsFor at hdv
    rcases List.mem_map.mp hdv with ⟨dv0, hdv0, rfl⟩
    dsimp only
    rw [hload_q' dv0.id]
    rcases hpos dv0 hdv0 with h | h
    · by_cases hx : dq = dv0.id
      · simp only [hx, if_pos rfl]
        omega
      · rw [if_neg (fun hc => hx hc)]
        omega
    · rw [if_pos h.symm]
      omega
end H2

namespace H2

theorem pfsLoad_congr (st1 st2 : H2State) (h : st1.pfslist = st2.pfslist)
    (u : Nat) (d : DevId) : pfsLoad st1 u d = pfsLoad st2 u d := by
  unfold pfsLoad findPfs
  rw [h]

theorem boundLoad_congr (st1 st2 : H2State) (hp : st1.pfslist = st2.pfslist)
    (hb : st1.bound = st2.bound) (d : DevId) :
    boundLoad st1 d = boundLoad st2 d := by
  unfold boundLoad
  rw [hb]
  exact congrArg _ (List.map_congr_left (fun b _ => pfsLoad_congr st1 st2 hp b.2 d))

theorem inv0_congr (env : DevId → Media) (st1 st2 : H2State) (hinv : Inv0 env st1)
    (hm : st2.mntlist = st1.mntlist) (hp : st2.pfslist = st1.pfslist)
    (hs : st2.spmplist = st1.spmplist) (hb : st2.bound = st1.bound)
    (hn : st1.nextUid ≤ st2.nextUid) : Inv0 env st2 := by
  constructor
  · rw [hm]; exact hinv.devNodup
  · rw [hm]; exact hinv.devLocal
  · rw [hp, hs]; exact hinv.uidNodup
  · rw [hp, hs]
    intro p hmem
    exact Nat.lt_of_lt_of_le (hinv.uidLt p hmem) hn
  · rw [hp]
    intro p hmem
    rcases hinv.pfsShape p hmem with ⟨d', hdin, h1, h2, h3, h4⟩
    refine ⟨d', ?_, h1, h2, h3, h4⟩
    unfold devIds at hdin ⊢
    rw [hm]
    exact hdin
  · rw [hm, hp]; exact hinv.labelCover
  · rw [hm]
    intro dv hdv
    rw [boundLoad_congr st2 st1 hp hb]
    exact hinv.countEq dv hdv
  · rw [hb]; exact hinv.midNodup
  · rw [hb]; exact hinv.bUidNodup
  · rw [hb, hp]; exact hinv.boundPfs
  · rw [hs]
    intro p hmem
    rcases hinv.spmpShape p hmem with ⟨d', hdin, h1, h2, h3, h4, h5⟩
    refine ⟨d', ?_, h1, h2, h3, h4, h5⟩
    unfold devIds at hdin ⊢
    rw [hm]
    exact hdin

theorem inv_congr (env : DevId → Media) (st1 st2 : H2State) (hinv : Inv env st1)
    (hm : st2.mntlist = st1.mntlist) (hp : st2.pfslist = st1.pfslist)
    (hs : st2.spmplist = st1.spmplist) (hb : st2.bound = st1.bound)
    (hn : st1.nextUid ≤ st2.nextUid) : Inv env st2 := by
  refine ⟨inv0_congr env st1 st2 hinv.toInv0 hm hp hs hb hn, ?_⟩
  rw [hm]
  exact hinv.countPos

theorem find?_append_left {α : Type _} {pr : α → Bool} {l1 : List α} (l2 : List α)
    {a : α} (h : l1.find? pr = some a) : (l1 ++ l2).find? pr = some a := by
  rw [List.find?_append, h]
  rfl

theorem find?_append_right_none {α : Type _} {pr : α → Bool} {l1 : List α}
    (l2 : List α) (h : l1.find? pr = none) :
    (l1 ++ l2).find? pr = l2.find? pr := by
  rw [List.find?_append, h]
  rfl

theorem uid_nodup_assemble (A N S : List Pfs) (x : Pfs) (k : Nat)
    (hAS : ((A ++ S).map (fun p => p.uid)).Nodup)
    (hN : (N.map (fun p => p.uid)).Nodup)
    (hAlt : ∀ p ∈ A, p.uid < k) (hSlt : ∀ p ∈ S, p.uid < k)
    (hxk : x.uid = k) (hNgt : ∀ p ∈ N, k < p.uid) :
    (((A ++ N) ++ (S ++ [x])).map (fun p => p.uid)).Nodup := by
  have e2 : A ++ ((S ++ [x]) ++ N) = (A ++ S) ++ (x :: N) := by
    simp [List.append_assoc]
  have hperm : ((A ++ N) ++ (S ++ [x])).Perm ((A ++ S) ++ (x :: N)) := by
    rw [List.append_assoc, ← e2]
    exact (List.perm_append_comm).append_left A
  refine ((hperm.map (fun p => p.uid)).nodup_iff).mpr ?_
  rw [List.map_append, List.nodup_append]
  refine ⟨hAS, ?_, ?_⟩
  · rw [List.map_cons, List.nodup_cons]
    refine ⟨?_, hN⟩
    intro hmem
    rcases List.mem_map.mp hmem with ⟨p, hp, hpe⟩
    have := hNgt p hp
    omega
  · intro u hu1 hu2
    rcases List.mem_map.mp hu1 with ⟨p, hp, rfl⟩
    have hlt : p.uid < k := by
      rcases List.mem_append.mp hp with hp | hp
      · exact hAlt p hp
      · exact hSlt p hp
    rw [List.map_cons] at hu2
    rcases List.mem_cons.mp hu2 with he | hmem
    · omega
    · rcases List.mem_map.mp hmem with ⟨p2, hp2, hpe2⟩
      have := hNgt p2 hp2
      omega

end H2

namespace H2

theorem mount_tail_existing (env : DevId → Media) (st : H2State) (inp : MountIn)
    (dev : Dev) (hinv : Inv env st) (hdev : dev ∈ st.mntlist)
    (hmid : inp.mid ∉ st.bound.map Prod.fst) :
    ∃ e st', hammer2_mount_tail env st inp dev.id = some (e, st') ∧
      Inv env st' ∧ (e ≠ 0 → st' = st) := by
  have hfd : st.mntlist.find? (fun dv => dv.id == dev.id) = some dev :=
    find?_eq_of_mem_nodup (fun dv : Dev => dv.id) st.mntlist hinv.devNodup dev hdev
  have hlocal : dev.hflags_local = true := hinv.devLocal dev hdev
  have hnoop : hammer2_unmount_helper_dev st dev = st :=
    helper_dev_noop st dev (hinv.countPos dev hdev)
  unfold hammer2_mount_tail
  rw [hfd]
  dsimp only
  rw [hlocal]
  simp only [if_true]
  cases hL : (env dev.id).labels.find? (fun L => L.filename == labelOf inp) with
  | none =>
    refine ⟨ENOENT, st, ?_, hinv, fun _ => rfl⟩
    rw [hnoop]
  | some L =>
    dsimp only
    by_cases hok : L.chainOk = true
    · rw [if_neg (by simp [hok])]
      have hLmem : L ∈ (env dev.id).labels := List.mem_of_find?_eq_some hL
      rcases hinv.labelCover dev hdev L hLmem hok with ⟨pm, hpmm, hpmfl, hpmn⟩
      have hmatch : pfsMatch (some dev.id) L pm = true := pfsMatch_self _ _ _ hpmfl hpmn
      have hex : (st.pfslist.find? (fun p => pfsMatch (some dev.id) L p)).isSome := by
        rw [List.find?_isSome]
        exact ⟨pm, hpmm, hmatch⟩
      rcases Option.isSome_iff_exists.mp hex with ⟨q, hq⟩
      rw [pfsalloc_nochain_match st L dev.id q hq]
      dsimp only
      have hqm : q ∈ st.pfslist := List.mem_of_find?_eq_some hq
      have hpfsNodup : (st.pfslist.map (fun q => q.uid)).Nodup := by
        have := hinv.uidNodup
        rw [List.map_append] at this
        exact this.of_append_left
      rw [show findPfs st q.uid = some q from findPfs_of_mem st q hpfsNodup hqm]
      dsimp only
      cases hqmp : q.mp with
      | some m =>
        rw [show (some m).isSome = true from rfl]
        rw [if_pos rfl]
        refine ⟨EBUSY, st, ?_, hinv, fun _ => rfl⟩
        rw [hnoop]
      | none =>
        rw [show (none : Option MountId).isSome = false from rfl]
        rw [if_neg (by simp)]
        rcases hinv.pfsShape q hqm with ⟨dq, hdqin, hqfl, _, _, homq⟩
        refine ⟨0, hammer2_mount_helper st inp.mid q.uid, rfl, ?_, fun h => absurd rfl h⟩
        exact inv_bind env st hinv.toInv0 q dq hqm homq hqmp inp.mid hmid
          (fun dv hdv => Or.inl (hinv.countPos dv hdv))
    · rw [if_pos (by simp [hok])]
      refine ⟨EINVAL, st, ?_, hinv, fun _ => rfl⟩
      rw [hnoop]

end H2

namespace H2

theorem nat_sum_map_all_zero {α : Type _} (f : α → Nat) :
    ∀ l : List α, (∀ a ∈ l, f a = 0) → (l.map f).sum = 0 := by
  intro l
  induction l with
  | nil => intro _; rfl
  | cons x xs ih =>
    intro h
    simp only [List.map_cons, List.sum_cons]
    rw [h x (List.mem_cons_self x xs), ih (fun a ha => h a (List.mem_cons_of_mem x ha))]

theorem inv0_fresh_composite (env : DevId → Media) (st : H2State) (d : DevId)
    (hinv : Inv env st) (hdNotIn : d ∉ devIds st)
    (freshDev : Dev) (hfd : freshDev.id = d)
    (hffl : freshDev.hflags_local = true) (hfc : freshDev.mount_count = 0)
    (sp2 : Pfs) (hsp2shape : SpmpShape d sp2) (hsp2sp : sp2.isSpmp = true)
    (hsp2mp : sp2.mp = none) (hsp2fl : sp2.force_local = some d)
    (hsp2refs : sp2.iroot_refs = 1) (hsp2uid : sp2.uid = st.nextUid)
    (news : List Pfs) (nU : Nat)
    (hnews : ∀ p ∈ news, NewProp d p ∧ st.nextUid + 1 ≤ p.uid ∧ p.uid < nU)
    (hndN : (news.map (fun p => p.uid)).Nodup)
    (hcov : ∀ L ∈ (env d).labels, L.chainOk = true →
      ∃ p ∈ st.pfslist ++ news, pfsMatch (some d) L p = true)
    (hnU : st.nextUid + 1 ≤ nU) :
    Inv0 env { mntlist := st.mntlist ++ [freshDev],
               pfslist := st.pfslist ++ news,
               spmplist := st.spmplist ++ [sp2],
               bound := st.bound, nextUid := nU } := by
  have hpfsNodup : (st.pfslist.map (fun q => q.uid)).Nodup := by
    have := hinv.uidNodup
    rw [List.map_append] at this
    exact this.of_append_left
  have hLoadSame : ∀ b ∈ st.bound, ∀ x,
      pfsLoad { mntlist := st.mntlist ++ [freshDev],
                pfslist := st.pfslist ++ news,
                spmplist := st.spmplist ++ [sp2],
                bound := st.bound, nextUid := nU } b.2 x
      = pfsLoad st b.2 x := by
    intro b hb x
    rcases hinv.boundPfs b hb with ⟨pb, hpbm, hpbu, _⟩
    have hfpb : st.pfslist.find? (fun q => q.uid == pb.uid) = some pb :=
      find?_eq_of_mem_nodup (fun q : Pfs => q.uid) st.pfslist hpfsNodup pb hpbm
    unfold pfsLoad findPfs
    dsimp only
    rw [← hpbu]
    rw [find?_append_left news hfpb, hfpb]
  constructor
  · -- devNodup
    show ((st.mntlist ++ [freshDev]).map (fun dv => dv.id)).Nodup
    rw [List.map_append, List.nodup_append]
    refine ⟨hinv.devNodup, by simp, ?_⟩
    intro a ha hb
    simp only [List.map_cons, List.map_nil, List.mem_singleton, hfd] at hb
    rw [hb] at ha
    exact hdNotIn ha
  · -- devLocal
    intro dv hdv
    rcases List.mem_append.mp hdv with h | h
    · exact hinv.devLocal dv h
    · rcases List.mem_singleton.mp h with rfl
      exact hffl
  · -- uidNodup
    exact uid_nodup_assemble st.pfslist news st.spmplist sp2 st.nextUid
      hinv.uidNodup hndN
      (fun p hp => hinv.uidLt p (List.mem_append_left _ hp))
      (fun p hp => hinv.uidLt p (List.mem_append_right _ hp))
      hsp2uid (fun p hp => by have := (hnews p hp).2.1; omega)
  · -- uidLt
    intro p hp
    show p.uid < nU
    rcases List.mem_append.mp hp with hp | hp
    · rcases List.mem_append.mp hp with hp | hp
      · have := hinv.uidLt p (List.mem_append_left _ hp)
        omega
      · exact ((hnews p hp).2.2)
    · rcases List.mem_append.mp hp with hp | hp
      · have := hinv.uidLt p (List.mem_append_right _ hp)
        omega
      · rcases List.mem_singleton.mp hp with rfl
        omega
  · -- pfsShape
    intro p hp
    rcases List.mem_append.mp hp with hp | hp
    · rcases hinv.pfsShape p hp with ⟨d', hdin, h1, h2, h3, h4⟩
      refine ⟨d', ?_, h1, h2, h3, h4⟩
      unfold devIds at hdin ⊢
      dsimp only
      rw [List.map_append]
      exact List.mem_append_left _ hdin
    · rcases (hnews p hp).1 with ⟨h1, h2, h3, h4, h5⟩
      refine ⟨d, ?_, h1, h2, h4, h5⟩
      unfold devIds
      dsimp only
      rw [List.map_append]
      refine List.mem_append_right _ ?_
      simp [hfd]
  · -- labelCover
    intro dv hdv L hL hok
    rcases List.mem_append.mp hdv with hdvm | hdvm
    · rcases hinv.labelCover dv hdvm L hL hok with ⟨p, hpm, hpfl, hpn⟩
      exact ⟨p, List.mem_append_left _ hpm, hpfl, hpn⟩
    · rcases List.mem_singleton.mp hdvm with rfl
      rw [hfd] at hL
      rcases hcov L hL hok with ⟨p, hpm, hpmatch⟩
      rcases pfsMatch_elim hpmatch with ⟨hpfl, hpn⟩
      exact ⟨p, hpm, by rw [hpfl, hfd], hpn⟩
  · -- countEq
    intro dv hdv
    rcases List.mem_append.mp hdv with hdvm | hdvm
    · have heq := hinv.countEq dv hdvm
      unfold boundLoad
      dsimp only
      rw [List.map_congr_left (fun b hb => hLoadSame b hb dv.id)]
      exact heq
    · rcases List.mem_singleton.mp hdvm with rfl
      rw [hfc]
      unfold boundLoad
      dsimp only
      symm
      apply nat_sum_map_all_zero
      intro b hb
      rw [hLoadSame b hb dv.id]
      rcases hinv.boundPfs b hb with ⟨pb, hpbm, hpbu, _⟩
      rcases hinv.pfsShape pb hpbm with ⟨dpb, hdin, _, _, _, hom⟩
      unfold pfsLoad findPfs
      rw [← hpbu,
        find?_eq_of_mem_nodup (fun q : Pfs => q.uid) st.pfslist hpfsNodup pb hpbm]
      dsimp only
      rw [oneMember_load hom dv.id]
      rw [if_neg]
      intro he
      rw [he, hfd] at hdin
      exact hdNotIn hdin
  · -- midNodup
    exact hinv.midNodup
  · -- bUidNodup
    exact hinv.bUidNodup
  · -- boundPfs
    intro b hb
    rcases hinv.boundPfs b hb with ⟨pb, hpbm, hpbu, hpbmp⟩
    exact ⟨pb, List.mem_append_left _ hpbm, hpbu, hpbmp⟩
  · -- spmpShape
    intro p hp
    rcases List.mem_append.mp hp with hp | hp
    · rcases hinv.spmpShape p hp with ⟨d', hdin, h1, h2, h3, h4, h5⟩
      refine ⟨d', ?_, h1, h2, h3, h4, h5⟩
      unfold devIds at hdin ⊢
      dsimp only
      rw [List.map_append]
      exact List.mem_append_left _ hdin
    · rcases List.mem_singleton.mp hp with rfl
      refine ⟨d, ?_, hsp2fl, hsp2sp, hsp2mp, hsp2refs, hsp2shape⟩
      unfold devIds
      dsimp only
      rw [List.map_append]
      refine List.mem_append_right _ ?_
      simp [hfd]

end H2

namespace H2

theorem mount_fresh_spec (env : DevId → Media) (st : H2State) (inp : MountIn)
    (d : DevId) (hinv : Inv env st) (hdevspec : inp.devspec = some d)
    (hnotin : st.mntlist.find? (fun dv => dv.id == d) = none)
    (hmid : inp.mid ∉ st.bound.map Prod.fst) :
    ∀ e st', hammer2_mount env st inp = some (e, st') →
      Inv env st' ∧ (e ≠ 0 → st'.mntlist = st.mntlist ∧ st'.pfslist = st.pfslist ∧
        st'.spmplist = st.spmplist ∧ st'.bound = st.bound) := by
  intro e st' hrun
  have hdNotIn : d ∉ devIds st := by
    intro hmem
    rcases List.mem_map.mp hmem with ⟨dv, hdv, hdvid⟩
    have := List.find?_eq_none.mp hnotin dv hdv
    simp [hdvid] at this
  unfold hammer2_mount at hrun
  rw [hdevspec] at hrun
  dsimp only at hrun
  rw [hnotin] at hrun
  rw [if_neg (by simp)] at hrun
  by_cases hopen : inp.openOk = true
  case neg =>
    rw [if_pos (by simpa using hopen)] at hrun
    cases hrun
    exact ⟨hinv, fun _ => ⟨rfl, rfl, rfl, rfl⟩⟩
  case pos =>
    rw [if_neg (by simpa using hopen)] at hrun
    by_cases hloc : inp.hflagsLocal = true
    case neg =>
      rw [if_pos (by simpa using hloc)] at hrun
      cases hrun
    case pos =>
      rw [if_neg (by simpa using hloc)] at hrun
      rw [pfsalloc_spmp _ d] at hrun
      dsimp only at hrun
      set fDev : Dev :=
        { id := d, hflags_local := true, allocator_size := (env d).allocator_size,
          allocator_free := (env d).allocator_free, mount_count := 0 } with hfDev
      have hupd1 : updatePfsList (st.spmplist ++ [freshPfs st.nextUid none (some d)])
          st.nextUid
          (fun p => { p with slots := setSlot0 p.slots (fun s => { s with hmp := some d }) })
          = st.spmplist ++ [(⟨st.nextUid, some d, 0,
              spmpSlot0 d HAMMER2_PFSTYPE_NONE ::
                List.replicate (HAMMER2_MAXCLUSTER - 1) Slot.empty,
              0, none, true, 1⟩ : Pfs)] := by
        have hne : ∀ q ∈ st.spmplist,
            q.uid ≠ (freshPfs st.nextUid none (some d)).uid := by
          intro q hq
          exact Nat.ne_of_lt (hinv.uidLt q (List.mem_append_right _ hq))
        have h := updatePfsList_append_last st.spmplist
          (freshPfs st.nextUid none (some d))
          (fun p => { p with slots := setSlot0 p.slots (fun s => { s with hmp := some d }) })
          hne
        rw [show (freshPfs st.nextUid none (some d)).uid = st.nextUid from rfl] at h
        rw [h]
        rfl
      rw [hupd1] at hrun
      set sp1 : Pfs := (⟨st.nextUid, some d, 0,
          spmpSlot0 d HAMMER2_PFSTYPE_NONE ::
            List.replicate (HAMMER2_MAXCLUSTER - 1) Slot.empty,
          0, none, true, 1⟩ : Pfs) with hsp1
      have hsp1shape : SpmpShape d sp1 := ⟨HAMMER2_PFSTYPE_NONE, by rw [hsp1], by rw [hsp1]⟩
      have hfdevc : fDev.mount_count = 0 := by rw [hfDev]
      have hshape_old0 : ∀ p ∈ st.pfslist, ∃ dd, OneMember dd p := inv0_shapes0 hinv.toInv0
      have hold_unaffected : ∀ p ∈ st.pfslist, pfsAffected d p = false := by
        intro p hp
        rcases hinv.pfsShape p hp with ⟨d2, hd2in, _, _, _, hom⟩
        refine oneMember_not_affected hom ?_
        intro he
        rw [he] at hd2in
        exact hdNotIn hd2in
      have hold_unaffected1 : ∀ p ∈ st.spmplist, pfsAffected d p = false := by
        intro p hp
        rcases hinv.spmpShape p hp with ⟨d2, hd2in, _, _, _, _, hsh⟩
        rw [spmp_affected d2 hsh]
        simp only [beq_eq_false_iff_ne, ne_eq]
        intro he
        rw [he] at hd2in
        exact hdNotIn hd2in
      have hmnt : (st.mntlist ++ [fDev]).eraseP (fun dv => dv.id == fDev.id)
          = st.mntlist := by
        rw [List.eraseP_append_right _
          (by
            intro b hb
            have hbne := List.find?_eq_none.mp hnotin b hb
            rw [hfDev]
            simpa using hbne)]
        rw [List.eraseP_cons_of_pos (by simp)]
        simp
      have hpf : st.pfslist.filter (fun p => !(pfsAffected fDev.id p)) = st.pfslist := by
        refine List.filter_eq_self.mpr (fun p hp => ?_)
        have : pfsAffected fDev.id p = false := by
          rw [hfDev]
          exact hold_unaffected p hp
        rw [this]
        rfl
      by_cases hsroot : (env d).srootOk = true
      case neg =>
        rw [if_pos (by simpa using hsroot)] at hrun
        have hteq := helper_dev_teardown
          { mntlist := st.mntlist ++ [fDev], pfslist := st.pfslist,
            spmplist := st.spmplist ++ [sp1], bound := st.bound,
            nextUid := st.nextUid + 1 }
          fDev hfdevc
          (by intro p hp; exact hshape_old0 p hp)
          (by
            intro p hp
            rcases List.mem_append.mp hp with hp | hp
            · exact inv0_shapes1 hinv.toInv0 p hp
            · rcases List.mem_singleton.mp hp with rfl
              exact ⟨d, hsp1shape⟩)
        rw [hteq] at hrun
        dsimp only at hrun
        have hspf : (st.spmplist ++ [sp1]).filter (fun p => !(pfsAffected fDev.id p))
            = st.spmplist := by
          rw [List.filter_append]
          have h1 : st.spmplist.filter (fun p => !(pfsAffected fDev.id p)) = st.spmplist := by
            refine List.filter_eq_self.mpr (fun p hp => ?_)
            have : pfsAffected fDev.id p = false := by
              rw [hfDev]
              exact hold_unaffected1 p hp
            rw [this]
            rfl
          have haff : pfsAffected fDev.id sp1 = true := by
            rw [spmp_affected d hsp1shape, hfDev]
            simp
          rw [h1, List.filter_cons_of_neg (by rw [haff]; simp)]
          simp
        rw [hmnt, hpf, hspf] at hrun
        cases hrun
        constructor
        · exact inv_congr env st _ hinv rfl rfl rfl rfl (Nat.le_succ _)
        · intro _
          exact ⟨rfl, rfl, rfl, rfl⟩
      case pos =>
        rw [if_neg (by simpa using hsroot)] at hrun
        have hupd2 : updatePfsList (st.spmplist ++ [sp1]) st.nextUid
            (fun p =>
              { p with
                pfs_clid := (env d).srootClid
                slots := setSlot0 p.slots (fun s => { s with ptype := (env d).srootType }) })
            = st.spmplist ++ [(⟨st.nextUid, some d, (env d).srootClid,
                spmpSlot0 d (env d).srootType ::
                  List.replicate (HAMMER2_MAXCLUSTER - 1) Slot.empty,
                0, none, true, 1⟩ : Pfs)] := by
          have hne : ∀ q ∈ st.spmplist, q.uid ≠ sp1.uid := by
            intro q hq
            rw [hsp1]
            exact Nat.ne_of_lt (hinv.uidLt q (List.mem_append_right _ hq))
          have h := updatePfsList_append_last st.spmplist sp1
            (fun p =>
              { p with
                pfs_clid := (env d).srootClid
                slots := setSlot0 p.slots (fun s => { s with ptype := (env d).srootType }) })
            hne
          rw [show sp1.uid = st.nextUid from by rw [hsp1]] at h
          rw [h, hsp1]
          rfl
        rw [hupd2] at hrun
        set sp2 : Pfs := (⟨st.nextUid, some d, (env d).srootClid,
            spmpSlot0 d (env d).srootType ::
              List.replicate (HAMMER2_MAXCLUSTER - 1) Slot.empty,
            0, none, true, 1⟩ : Pfs) with hsp2
        have hsp2shape : SpmpShape d sp2 := ⟨(env d).srootType, by rw [hsp2], by rw [hsp2]⟩
        have hfindf : (st.mntlist ++ [fDev]).find? (fun dv => dv.id == d) = some fDev := by
          rw [find?_append_right_none _ hnotin]
          exact List.find?_cons_of_pos _ (by rw [hfDev]; simp)
        unfold hammer2_update_pmps at hrun
        rw [hfindf] at hrun
        dsimp only at hrun
        rw [if_pos rfl] at hrun
        cases hfold : update_pmps_go d (some d)
            { mntlist := st.mntlist ++ [fDev], pfslist := st.pfslist,
              spmplist := st.spmplist ++ [sp2], bound := st.bound,
              nextUid := st.nextUid + 1 } (env d).labels with
        | none =>
          rw [hfold] at hrun
          cases hrun
        | some st5 =>
          rw [hfold] at hrun
          dsimp only at hrun
          have hspec := update_pmps_go_spec d (env d).labels
            { mntlist := st.mntlist ++ [fDev], pfslist := st.pfslist,
              spmplist := st.spmplist ++ [sp2], bound := st.bound,
              nextUid := st.nextUid + 1 } st5 hfold
            (by
              intro p hp hpfl
              exfalso
              rcases hinv.pfsShape p hp with ⟨d2, hd2in, hfl2, _, _, _⟩
              rw [hpfl] at hfl2
              rcases Option.some_inj.mp hfl2 with rfl
              exact hdNotIn hd2in)
            (by
              intro p hp
              show p.uid < st.nextUid + 1
              rcases List.mem_append.mp hp with hp | hp
              · have := hinv.uidLt p (List.mem_append_left _ hp)
                omega
              · rcases List.mem_append.mp hp with hp | hp
                · have := hinv.uidLt p (List.mem_append_right _ hp)
                  omega
                · rcases List.mem_singleton.mp hp with rfl
                  rw [show sp2.uid = st.nextUid from by rw [hsp2]]
                  omega)
          obtain ⟨m5, p5, s5, b5, n5⟩ := st5
          rcases hspec with ⟨news, hm5, hs5, hb5, hpl5, hnx5, hprops, hndN, hcov⟩
          dsimp only at hm5 hs5 hb5 hpl5 hnx5 hrun
          subst hm5
          subst hs5
          subst hb5
          subst hpl5
          dsimp only at hprops
          have hInv05 : Inv0 env
              { mntlist := st.mntlist ++ [fDev], pfslist := st.pfslist ++ news,
                spmplist := st.spmplist ++ [sp2], bound := st.bound,
                nextUid := n5 } :=
            inv0_fresh_composite env st d hinv hdNotIn fDev (by rw [hfDev])
              (by rw [hfDev]) (by rw [hfDev]) sp2 hsp2shape (by rw [hsp2])
              (by rw [hsp2]) (by rw [hsp2]) (by rw [hsp2]) rfl
              news n5 hprops hndN hcov hnx5
          have hclean : hammer2_unmount_helper_dev
              { mntlist := st.mntlist ++ [fDev], pfslist := st.pfslist ++ news,
                spmplist := st.spmplist ++ [sp2], bound := st.bound,
                nextUid := n5 } fDev
              = { mntlist := st.mntlist, pfslist := st.pfslist,
                  spmplist := st.spmplist, bound := st.bound,
                  nextUid := n5 } := by
            rw [helper_dev_teardown _ fDev (by rw [hfDev]) (inv0_shapes0 hInv05)
              (inv0_shapes1 hInv05)]
            dsimp only
            have h2 : (st.pfslist ++ news).filter
                (fun p => !(pfsAffected fDev.id p)) = st.pfslist := by
              rw [List.filter_append, hpf]
              have hnil : news.filter (fun p => !(pfsAffected fDev.id p)) = [] := by
                rw [List.filter_eq_nil_iff]
                intro p hp
                rcases (hprops p hp).1 with ⟨_, _, _, _, hom⟩
                rw [oneMember_affected d hom, hfDev]
                simp
              rw [hnil, List.append_nil]
            have h3 : (st.spmplist ++ [sp2]).filter
                (fun p => !(pfsAffected fDev.id p)) = st.spmplist := by
              rw [List.filter_append]
              have hnil : [sp2].filter (fun p => !(pfsAffected fDev.id p)) = [] := by
                rw [List.filter_eq_nil_iff]
                intro p hp
                rcases List.mem_singleton.mp hp with rfl
                rw [spmp_affected d hsp2shape, hfDev]
                simp
              have hold : st.spmplist.filter
                  (fun p => !(pfsAffected fDev.id p)) = st.spmplist := by
                rw [List.filter_eq_self]
                intro p hp
                rw [show fDev.id = d from by rw [hfDev]]
                rw [hold_unaffected1 p hp]
                rfl
              rw [hnil, hold, List.append_nil]
            rw [hmnt, h2, h3]
          unfold hammer2_mount_tail at hrun
          rw [hfindf] at hrun
          dsimp only at hrun
          cases hLf : (env d).labels.find? (fun L => L.filename == labelOf inp) with
          | none =>
            rw [hLf] at hrun
            dsimp only at hrun
            rw [hclean] at hrun
            rcases Prod.mk.injEq .. ▸ Option.some_inj.mp hrun with ⟨he, hst'⟩
            subst hst'
            constructor
            · exact inv_congr env st _ hinv rfl rfl rfl rfl (by show st.nextUid ≤ n5; omega)
            · intro _
              exact ⟨rfl, rfl, rfl, rfl⟩
          | some L =>
            rw [hLf] at hrun
            dsimp only at hrun
            by_cases hok : L.chainOk
            case neg =>
              rw [if_pos (by simpa using hok)] at hrun
              rw [hclean] at hrun
              rcases Prod.mk.injEq .. ▸ Option.some_inj.mp hrun with ⟨he, hst'⟩
              subst hst'
              constructor
              · exact inv_congr env st _ hinv rfl rfl rfl rfl (by show st.nextUid ≤ n5; omega)
              · intro _
                exact ⟨rfl, rfl, rfl, rfl⟩
            case pos =>
              rw [if_neg (by simpa using hok)] at hrun
              rw [if_pos rfl] at hrun
              have hLmem : L ∈ (env d).labels := List.mem_of_find?_eq_some hLf
              rcases hcov L hLmem hok with ⟨q0, hq0mem, hq0match⟩
              have hfindSome : ((st.pfslist ++ news).find?
                  (fun p => pfsMatch (some d) L p)).isSome := by
                rw [List.find?_isSome]
                exact ⟨q0, hq0mem, hq0match⟩
              rcases Option.isSome_iff_exists.mp hfindSome with ⟨q, hfq⟩
              have hqmem : q ∈ st.pfslist ++ news := List.mem_of_find?_eq_some hfq
              have hqmatch : pfsMatch (some d) L q = true := List.find?_some hfq
              have hqnew : q ∈ news := by
                rcases List.mem_append.mp hqmem with hq | hq
                · exfalso
                  rcases hinv.pfsShape q hq with ⟨d2, hd2in, hfl2, _, _, _⟩
                  have := (pfsMatch_elim hqmatch).1
                  rw [this] at hfl2
                  rcases Option.some_inj.mp hfl2 with rfl
                  exact hdNotIn hd2in
                · exact hq
              rcases (hprops q hqnew).1 with ⟨hqfl, hqsp, hqmp, hqrefs, hqom⟩
              rw [pfsalloc_nochain_match _ L d q hfq] at hrun
              dsimp only at hrun
              have hndAll : ((st.pfslist ++ news).map (fun p => p.uid)).Nodup := by
                have := hInv05.uidNodup
                rw [List.map_append] at this
                exact this.of_append_left
              rw [findPfs_of_mem _ q hndAll (by exact hqmem)] at hrun
              dsimp only at hrun
              rw [hqmp] at hrun
              rw [if_neg (by simp)] at hrun
              rcases Prod.mk.injEq .. ▸ Option.some_inj.mp hrun with ⟨he, hst'⟩
              subst hst'
              constructor
              · exact inv_bind env _ hInv05 q d hqmem hqom hqmp inp.mid hmid
                  (by
                    intro dv hdv
                    rcases List.mem_append.mp hdv with hdv | hdv
                    · exact Or.inl (hinv.countPos dv hdv)
                    · rcases List.mem_singleton.mp hdv with rfl
                      exact Or.inr (by rw [hfDev]))
              · intro hne0
                exact absurd he.symm hne0


end H2

namespace H2

theorem mount_tail_inv (env : DevId → Media) (st : H2State) (inp : MountIn)
    (d : DevId) (hinv : Inv env st) (hmid : inp.mid ∉ st.bound.map Prod.fst) :
    ∀ e st', hammer2_mount_tail env st inp d = some (e, st') → Inv env st' := by
  intro e st' hrun
  cases hfind : st.mntlist.find? (fun dv => dv.id == d) with
  | none =>
    exfalso
    unfold hammer2_mount_tail at hrun
    rw [hfind] at hrun
    cases hrun
  | some dev =>
    have hdev : dev ∈ st.mntlist := List.mem_of_find?_eq_some hfind
    have hdid : dev.id = d := by simpa using List.find?_some hfind
    rcases mount_tail_existing env st inp dev hinv hdev hmid with
      ⟨e1, st1, heq, hinv1, _⟩
    rw [hdid] at heq
    rw [heq] at hrun
    rcases Prod.mk.injEq .. ▸ Option.some_inj.mp hrun with ⟨he, hst'⟩
    subst hst'
    exact hinv1

theorem inv_mount (env : DevId → Media) (st : H2State) (inp : MountIn)
    (hinv : Inv env st) (hmid : inp.mid ∉ st.bound.map Prod.fst) :
    ∀ e st', hammer2_mount env st inp = some (e, st') → Inv env st' := by
  intro e st' hrun
  have hrun0 := hrun
  unfold hammer2_mount at hrun
  cases hds : inp.devspec with
  | none =>
    rw [hds] at hrun
    dsimp only at hrun
    cases hfl : findLabelDev st (labelOf inp) with
    | none =>
      rw [hfl] at hrun
      rcases Prod.mk.injEq .. ▸ Option.some_inj.mp hrun with ⟨he, hst'⟩
      subst hst'
      exact hinv
    | some d =>
      rw [hfl] at hrun
      exact mount_tail_inv env st inp d hinv hmid e st' hrun
  | some d =>
    rw [hds] at hrun
    dsimp only at hrun
    by_cases hin : (st.mntlist.find? (fun dev => dev.id == d)).isSome
    · rw [if_pos hin] at hrun
      exact mount_tail_inv env st inp d hinv hmid e st' hrun
    · have hnone : st.mntlist.find? (fun dv => dv.id == d) = none :=
        Option.not_isSome_iff_eq_none.mp hin
      exact (mount_fresh_spec env st inp d hinv hds hnone hmid e st' hrun0).1

theorem inv_init (env : DevId → Media) : Inv env initState := by
  refine ⟨⟨?_, ?_, ?_, ?_, ?_, ?_, ?_, ?_, ?_, ?_, ?_⟩, ?_⟩
  · exact List.nodup_nil
  · intro dv hdv; cases hdv
  · exact List.nodup_nil
  · intro p hp; cases hp
  · intro p hp; cases hp
  · intro dv hdv L hL hok; cases hdv
  · intro dv hdv; cases hdv
  · exact List.nodup_nil
  · exact List.nodup_nil
  · intro b hb; cases hb
  · intro p hp; cases hp
  · intro dv hdv; cases hdv

theorem inv_reachable (env : DevId → Media) (st : H2State)
    (h : Reachable env st) : Inv env st := by
  induction h with
  | init => exact inv_init env
  | step hr hs ih =>
    cases hs with
    | mount inp e s1 s2 hmid hrun => exact inv_mount env _ inp ih hmid e _ hrun
    | unmount inp e s1 s2 hrun =>
      have := inv_unmount env _ inp ih
      rw [hrun] at this
      exact this

end H2

namespace H2

theorem sweepGo_removes (env : DevId → Media) :
    ∀ (n : Nat) (st : H2State) (d : DevId) (U : Nat),
      Inv0 env st → st.mntlist.length ≤ n →
      (((∃ dv ∈ st.mntlist, dv.id = d ∧ dv.mount_count = 0) ∧
        (∀ p ∈ st.pfslist, p.uid = U → OneMember d p)) ∨
       (d ∉ devIds st ∧ ∀ p ∈ st.pfslist, p.uid ≠ U)) →
      d ∉ devIds (sweepGo n st) ∧ ∀ p ∈ (sweepGo n st).pfslist, p.uid ≠ U := by
  intro n
  induction n with
  | zero =>
    intro st d U hinv hlen hAB
    have hnil : st.mntlist = [] := List.eq_nil_of_length_eq_zero (by omega)
    unfold sweepGo
    rcases hAB with ⟨⟨dv, hdv, _⟩, _⟩ | hB
    · rw [hnil] at hdv; cases hdv
    · exact hB
  | succ m ih =>
    intro st d U hinv hlen hAB
    unfold sweepGo
    cases hf : st.mntlist.find? (fun dv => dv.mount_count == 0) with
    | none =>
      rcases hAB with ⟨⟨dv, hdv, hdvid, hdvc⟩, _⟩ | hB
      · exfalso
        have := List.find?_eq_none.mp hf dv hdv
        simp [hdvc] at this
      · exact hB
    | some dev =>
      rcases find?_count_zero hf with ⟨hmem, h0⟩
      have hinv' := inv0_teardown env st dev hinv hmem h0
      have hteq := helper_dev_teardown st dev h0 (inv0_shapes0 hinv) (inv0_shapes1 hinv)
      have hlen' : (hammer2_unmount_helper_dev st dev).mntlist.length ≤ m := by
        rw [hteq]
        have := length_eraseP_of_exists (fun dv => dv.id == dev.id) st.mntlist
          ⟨dev, hmem, by simp⟩
        simp only
        omega
      refine ih _ d U hinv' hlen' ?_
      rw [hteq]
      unfold devIds
      dsimp only
      rcases hAB with ⟨⟨dv, hdv, hdvid, hdvc⟩, hA2⟩ | hB
      · by_cases hdd : dev.id = d
        · right
          constructor
          · intro hmemm
            rcases List.mem_map.mp hmemm with ⟨a, ha, haid⟩
            have hane : a.id ≠ dev.id :=
              mem_eraseP_key_ne (fun dv : Dev => dv.id) st.mntlist
                hinv.devNodup dev hmem a ha
            exact hane (by rw [haid, hdd])
          · intro p' hp' hUe
            have hp'mem := List.mem_of_mem_filter hp'
            have hp'keep : (!(pfsAffected dev.id p')) = true :=
              List.of_mem_filter (p := fun p => !(pfsAffected dev.id p)) hp'
            have hom := hA2 p' hp'mem hUe
            rw [oneMember_affected d hom, hdd] at hp'keep
            simp at hp'keep
        · left
          constructor
          · refine ⟨dv, ?_, hdvid, hdvc⟩
            rw [List.mem_eraseP_of_neg (by simp; intro he; exact hdd (he ▸ hdvid.symm ▸ rfl))]
            exact hdv
          · intro p' hp' hUe
            exact hA2 p' (List.mem_of_mem_filter hp') hUe
      · right
        constructor
        · intro hmemm
          rcases List.mem_map.mp hmemm with ⟨a, ha, haid⟩
          exact hB.1 (List.mem_map.mpr ⟨a, List.mem_of_mem_eraseP ha, haid⟩)
        · intro p' hp' hUe
          exact hB.2 p' (List.mem_of_mem_filter hp') hUe

end H2

namespace H2

/-- C2: unmounting the last PFS that references a device — a bound PFS whose
single cluster member sits on a device with `mount_count` 1 — succeeds, and
afterwards the fixpoint teardown sweep has removed both that PFS and that
device from their registries. -/
theorem unmount_last (env : DevId → Media) (st : H2State)
    (hReach : Reachable env st)
    (b : MountId × Nat) (hb : b ∈ st.bound)
    (q : Pfs) (hq : q ∈ st.pfslist) (hqu : q.uid = b.2)
    (dq : DevId) (hom : OneMember dq q)
    (dv : Dev) (hdv : dv ∈ st.mntlist) (hdvid : dv.id = dq)
    (hlast : dv.mount_count = 1)
    (inp : UnmountIn) (hmidEq : inp.mid = b.1) (hflush : inp.flushOk = true) :
    (hammer2_unmount st inp).1 = 0 ∧
    dq ∉ devIds (hammer2_unmount st inp).2 ∧
    ∀ p ∈ (hammer2_unmount st inp).2.pfslist, p.uid ≠ q.uid := by
  have hinv := inv_reachable env st hReach
  have hpfsNodup : (st.pfslist.map (fun p => p.uid)).Nodup := by
    have := hinv.uidNodup
    rw [List.map_append] at this
    exact this.of_append_left
  have hfind : st.bound.find? (fun x => x.1 == inp.mid) = some b := by
    rw [hmidEq]
    exact find?_eq_of_mem_nodup (fun x : MountId × Nat => x.1) st.bound
      hinv.midNodup b hb
  unfold hammer2_unmount
  rw [hfind]
  dsimp only
  rw [show (!inp.flushOk && !inp.force) = false from by rw [hflush]; rfl]
  rw [if_neg (by simp)]
  unfold hammer2_unmount_helper_pmp
  have hfindq : findPfs
      { st with bound := st.bound.eraseP (fun x => x.1 == inp.mid) } b.2
      = some q := by
    unfold findPfs
    rw [← hqu]
    exact find?_eq_of_mem_nodup (fun p : Pfs => p.uid) st.pfslist hpfsNodup q hq
  dsimp only
  rw [hfindq]
  dsimp only
  have hinv2 : Inv0 env
      { mntlist := decCountsFor st.mntlist q, pfslist := st.pfslist,
        spmplist := st.spmplist,
        bound := st.bound.eraseP (fun x => x.1 == inp.mid),
        nextUid := st.nextUid } :=
    inv0_presweep env st inp hinv b hfind q hq hqu
  have hmain := sweepGo_removes env
    (decCountsFor st.mntlist q).length
    { mntlist := decCountsFor st.mntlist q, pfslist := st.pfslist,
      spmplist := st.spmplist,
      bound := st.bound.eraseP (fun x => x.1 == inp.mid),
      nextUid := st.nextUid } dq q.uid hinv2 (Nat.le_refl _)
    (Or.inl ⟨⟨{ dv with mount_count :=
          dv.mount_count - (clusterChains q).countP (fun c => c.hmp == dv.id) },
        by
          show _ ∈ decCountsFor st.mntlist q
          unfold decCountsFor
          exact List.mem_map.mpr ⟨dv, hdv, rfl⟩,
        hdvid,
        by
          show dv.mount_count - (clusterChains q).countP (fun c => c.hmp == dv.id) = 0
          rw [oneMember_load hom dv.id, hdvid]
          simp [hlast]⟩,
      by
        intro p hp he
        have : p = q := mem_nodup_uid_eq hpfsNodup hp hq he
        rw [this]
        exact hom⟩)
  refine ⟨rfl, ?_, ?_⟩
  · exact hmain.1
  · exact hmain.2

end H2

namespace H2

theorem sum_eq_countP_pos {α : Type _} (l : List α) (f : α → Nat)
    (h : ∀ x ∈ l, f x ≤ 1) :
    (l.map f).sum = l.countP (fun x => decide (0 < f x)) := by
  induction l with
  | nil => rfl
  | cons y ys ih =>
    rw [List.map_cons, List.sum_cons, List.countP_cons]
    have hy := h y (List.mem_cons_self y ys)
    have hys := ih (fun x hx => h x (List.mem_cons_of_mem y hx))
    rcases Nat.le_one_iff_eq_zero_or_eq_one.mp hy with h0 | h1
    · rw [h0]
      simp [hys]
    · rw [h1]
      simp [hys]
      omega

theorem boundLoad_eq_depCount (env : DevId → Media) (st : H2State)
    (hinv : Inv0 env st) (d : DevId) :
    boundLoad st d = boundDepCount st d := by
  have hpfsNodup : (st.pfslist.map (fun p => p.uid)).Nodup := by
    have := hinv.uidNodup
    rw [List.map_append] at this
    exact this.of_append_left
  unfold boundLoad boundDepCount
  apply sum_eq_countP_pos
  intro b hb
  rcases hinv.boundPfs b hb with ⟨pb, hpbm, hpbu, _⟩
  rcases hinv.pfsShape pb hpbm with ⟨dpb, _, _, _, _, hom⟩
  have hfq : findPfs st b.2 = some pb := by
    unfold findPfs
    rw [← hpbu]
    exact find?_eq_of_mem_nodup (fun p : Pfs => p.uid) st.pfslist hpfsNodup pb hpbm
  unfold pfsLoad
  rw [hfq]
  dsimp only
  rw [oneMember_load hom d]
  by_cases hx : dpb = d
  · rw [if_pos hx]
  · rw [if_neg hx]
    omega

end H2

namespace H2


theorem mount_tail_err (env : DevId → Media) (st : H2State) (inp : MountIn)
    (d : DevId) (hinv : Inv env st) (hmid : inp.mid ∉ st.bound.map Prod.fst) :
    ∀ e st', hammer2_mount_tail env st inp d = some (e, st') → e ≠ 0 →
      st' = st := by
  intro e st' hrun hne
  cases hfind : st.mntlist.find? (fun dv => dv.id == d) with
  | none =>
    exfalso
    unfold hammer2_mount_tail at hrun
    rw [hfind] at hrun
    cases hrun
  | some dev =>
    have hdev : dev ∈ st.mntlist := List.mem_of_find?_eq_some hfind
    have hdid : dev.id = d := by simpa using List.find?_some hfind
    rcases mount_tail_existing env st inp dev hinv hdev hmid with
      ⟨e1, st1, heq, _, herr⟩
    rw [hdid] at heq
    rw [heq] at hrun
    rcases Prod.mk.injEq .. ▸ Option.some_inj.mp hrun with ⟨he, hst'⟩
    subst hst'
    exact herr (he ▸ hne)

theorem mountA1_run : hammer2_mount envA initState mntDATA = some (0, stA1) := by
  decide

theorem reachA1 : Reachable envA stA1 :=
  Reachable.step Reachable.init
    (Step.mount mntDATA 0 initState stA1 (by decide) mountA1_run)

theorem mountA2_run : hammer2_mount envA stA1 mntROOT = some (0, stA2) := by
  decide

theorem reachA2 : Reachable envA stA2 :=
  Reachable.step reachA1
    (Step.mount mntROOT 0 stA1 stA2 (by decide) mountA2_run)

theorem mountB1_run : hammer2_mount envB initState mntDATA = some (0, stB1) := by
  decide

theorem reachB1 : Reachable envB stB1 :=
  Reachable.step Reachable.init
    (Step.mount mntDATA 0 initState stB1 (by decide) mountB1_run)

end H2

namespace H2

/-- C1: along every reachable history — in particular any sequence of mounts
and unmounts of the same device under distinct labels — the device registry
holds at most one `hammer2_dev` per storage identity, and each registered
device's `mount_count` equals the number of currently bound PFS mounts that
have a cluster member backed by it. -/
theorem c1_device_unique_and_counts (env : DevId → Media) (st : H2State)
    (h : Reachable env st) :
    (devIds st).Nodup ∧
    ∀ dv ∈ st.mntlist, dv.mount_count = boundDepCount st dv.id := by
  have hinv := inv_reachable env st h
  refine ⟨hinv.devNodup, fun dv hdv => ?_⟩
  rw [hinv.countEq dv hdv]
  exact boundLoad_eq_depCount env st hinv.toInv0 dv.id

theorem c1_witness :
    (devIds stA2).Nodup ∧
    ∀ dv ∈ stA2.mntlist, dv.mount_count = boundDepCount stA2 dv.id :=
  c1_device_unique_and_counts envA stA2 reachA2

theorem c2_witness :
    (hammer2_unmount stB1 uinB).1 = 0 ∧
    0 ∉ devIds (hammer2_unmount stB1 uinB).2 ∧
    ∀ p ∈ (hammer2_unmount stB1 uinB).2.pfslist, p.uid ≠ qB.uid :=
  unmount_last envB stB1 reachB1 (1, 1) (by decide) qB (by decide) (by decide)
    0 ⟨"DATA", 6, ⟨0, 42⟩, rfl, by decide, by decide⟩
    ⟨0, true, 131072, 65536, 1⟩ (by decide) (by decide) (by decide)
    uinB rfl rfl

/-- C3 counterexample: clustered-mode resolution never collapses two
same-cluster-id labels into one PFS — `hammer2_pfsalloc` with
`force_local == NULL` trips `KASSERTMSG(force_local, ...)` (modelled as
`none`) before any matching happens. -/
theorem c3_counterexample :
    hammer2_pfsalloc initState (some ⟨0, 5⟩) (some LA1) none = none := by
  decide

/-- C3 (amended): clustered-mode resolution is unreachable
(`hammer2_pfsalloc` rejects a NULL `force_local` outright), and in
forced-local mode two labels sharing a cluster id yield two independent
single-member PFS objects. -/
theorem c3_amended :
    (∀ (st : H2State) (chain : Option Chain) (rip : Option LabelData),
        hammer2_pfsalloc st chain rip none = none) ∧
    stC1.pfslist.map (fun p => p.uid) = [1, 2] ∧
    stC1.pfslist.all (fun p => p.nchains == 1) = true ∧
    stC1.pfslist.all (fun p => p.pfs_clid == 10) = true := by
  refine ⟨?_, by decide, by decide, by decide⟩
  intro st chain rip
  unfold hammer2_pfsalloc
  rfl

/-- C4: a mount request that returns a non-zero error leaves the device
registry, both PFS registries and the binding table exactly as they were. -/
theorem c4_failed_mount_unwinds (env : DevId → Media) (st : H2State)
    (inp : MountIn) (h : Reachable env st)
    (hmid : inp.mid ∉ st.bound.map Prod.fst)
    (e : Errno) (st' : H2State)
    (hrun : hammer2_mount env st inp = some (e, st')) (hne : e ≠ 0) :
    st'.mntlist = st.mntlist ∧ st'.pfslist = st.pfslist ∧
    st'.spmplist = st.spmplist ∧ st'.bound = st.bound := by
  have hinv := inv_reachable env st h
  have hrun0 := hrun
  unfold hammer2_mount at hrun
  cases hds : inp.devspec with
  | none =>
    rw [hds] at hrun
    dsimp only at hrun
    cases hfl : findLabelDev st (labelOf inp) with
    | none =>
      rw [hfl] at hrun
      rcases Prod.mk.injEq .. ▸ Option.some_inj.mp hrun with ⟨he, hst'⟩
      subst hst'
      exact ⟨rfl, rfl, rfl, rfl⟩
    | some d =>
      rw [hfl] at hrun
      have := mount_tail_err env st inp d hinv hmid e st' hrun hne
      rw [this]
      exact ⟨rfl, rfl, rfl, rfl⟩
  | some d =>
    rw [hds] at hrun
    dsimp only at hrun
    by_cases hin : (st.mntlist.find? (fun dev => dev.id == d)).isSome
    · rw [if_pos hin] at hrun
      have := mount_tail_err env st inp d hinv hmid e st' hrun hne
      rw [this]
      exact ⟨rfl, rfl, rfl, rfl⟩
    · have hnone : st.mntlist.find? (fun dv => dv.id == d) = none :=
        Option.not_isSome_iff_eq_none.mp hin
      exact (mount_fresh_spec env st inp d hinv hds hnone hmid e st' hrun0).2 hne

theorem c4_witness :
    stD.mntlist = initState.mntlist ∧ stD.pfslist = initState.pfslist ∧
    stD.spmplist = initState.spmplist ∧ stD.bound = initState.bound :=
  c4_failed_mount_unwinds envA initState mntNOPE Reachable.init (by decide)
    ENOENT stD (by decide) (by decide)

/-- C5: after detaching every member of device `d` from a PFS, every slot at
index `nchains` or above is unpopulated (`nchains` never exceeds the highest
populated index plus one), a non-zero `nchains` has its topmost slot
populated, and — for a PFS the scan touched at all — zero remaining members
is exactly the case in which the scan reaps the PFS. -/
theorem c5_detach_recompute (d : DevId) (p : Pfs) :
    (∀ i, (detachDev d p).nchains ≤ i →
        ((detachDev d p).slots.getD i Slot.empty).hmp = none) ∧
    ((detachDev d p).nchains ≠ 0 →
        (((detachDev d p).slots.getD ((detachDev d p).nchains - 1)
            Slot.empty).hmp).isSome = true) ∧
    (pfsAffected d p = true →
        ((detachDev d p).nchains = 0 ↔ scanStep d p = none)) := by
  refine ⟨?_, ?_, ?_⟩
  · intro i hi
    exact nchainsOf_empty_above (p.slots.map (detachSlot d)) i hi
  · intro h
    exact nchainsOf_top_populated (p.slots.map (detachSlot d)) h
  · intro haff
    unfold scanStep
    rw [haff]
    dsimp only
    constructor
    · intro h0
      rw [if_pos h0]
      rw [if_pos rfl]
    · intro hnone
      by_cases h0 : (detachDev d p).nchains = 0
      · exact h0
      · rw [if_neg h0] at hnone
        cases hnone

theorem c5_witness :
    ((detachDev 0 pW).slots.getD 0 Slot.empty).hmp = none ∧
    scanStep 0 pW = none :=
  ⟨(c5_detach_recompute 0 pW).1 0 (by decide),
   ((c5_detach_recompute 0 pW).2.2 (by decide)).mp (by decide)⟩

/-- C6: a mount whose label resolves to a PFS that already carries an OS
mount binding fails with EBUSY, and the failed request leaves the state
exactly as it was. -/
theorem c6_already_bound_ebusy (env : DevId → Media) (st : H2State)
    (inp : MountIn) (d : DevId) (dev : Dev) (L : LabelData) (q : Pfs)
    (h : Reachable env st)
    (hdev : dev ∈ st.mntlist) (hdid : dev.id = d)
    (hdevspec : inp.devspec = some d)
    (hL : (env d).labels.find? (fun L2 => L2.filename == labelOf inp) = some L)
    (hok : L.chainOk = true)
    (hfq : st.pfslist.find? (fun p => pfsMatch (some d) L p) = some q)
    (hbound : q.mp.isSome = true) :
    hammer2_mount env st inp = some (EBUSY, st) := by
  have hinv := inv_reachable env st h
  have hpfsNodup : (st.pfslist.map (fun p => p.uid)).Nodup := by
    have := hinv.uidNodup
    rw [List.map_append] at this
    exact this.of_append_left
  have hfd : st.mntlist.find? (fun dv => dv.id == d) = some dev := by
    have := find?_eq_of_mem_nodup (fun dv : Dev => dv.id) st.mntlist
      hinv.devNodup dev hdev
    simp only [hdid] at this
    exact this
  have hlocal : dev.hflags_local = true := hinv.devLocal dev hdev
  unfold hammer2_mount
  rw [hdevspec]
  dsimp only
  rw [hfd]
  rw [if_pos (show (some dev).isSome = true from rfl)]
  unfold hammer2_mount_tail
  rw [hfd]
  dsimp only
  rw [hlocal]
  rw [if_pos rfl, hL]
  dsimp only
  rw [if_neg (by simpa using hok)]
  rw [pfsalloc_nochain_match st L d q hfq]
  dsimp only
  have hqmem : q ∈ st.pfslist := List.mem_of_find?_eq_some hfq
  rw [show findPfs st q.uid = some q from
    find?_eq_of_mem_nodup (fun p : Pfs => p.uid) st.pfslist hpfsNodup q hqmem]
  dsimp only
  rw [if_pos hbound]
  rw [helper_dev_noop st dev (hinv.countPos dev hdev)]

theorem c6_witness : hammer2_mount envA stA2 mntDATA3 = some (EBUSY, stA2) :=
  c6_already_bound_ebusy envA stA2 mntDATA3 0 devA2 LA1 qA2 reachA2
    (by decide) rfl rfl (by decide) (by decide) (by decide) (by decide)

/-- C7 counterexample: a root inode holding references beyond the registry's
own single one is not reported as "still in use" — `hammer2_pfsfree` trips
`KASSERTMSG(pmp->iroot->refs == 1, ...)` and panics. -/
theorem c7_counterexample :
    hammer2_pfsfree_outcome true 2 1 [some true] = PfsfreeOutcome.assertFail ∧
    hammer2_pfsfree_outcome true 2 1 [some true] ≠ PfsfreeOutcome.stillInUse := by
  decide

/-- C7 (amended): a root-inode reference count other than exactly 1 is a
fatal assertion; the deferred "still in use" path is taken precisely when the
reference count is 1, the PFS is mounted, and live sub-chains remain under a
cluster member; a PFS is only ever freed with the count at 1 and no live
sub-chains. -/
theorem c7_amended (mpSet : Bool) (irootRefs nchains : Nat)
    (chains : List (Option Bool)) :
    (irootRefs ≠ 1 →
      hammer2_pfsfree_outcome mpSet irootRefs nchains chains
        = PfsfreeOutcome.assertFail) ∧
    (hammer2_pfsfree_outcome mpSet irootRefs nchains chains
        = PfsfreeOutcome.freed →
      irootRefs = 1 ∧ chainsStillPresent nchains chains = false) ∧
    (irootRefs = 1 → mpSet = true → chainsStillPresent nchains chains = true →
      hammer2_pfsfree_outcome mpSet irootRefs nchains chains
        = PfsfreeOutcome.stillInUse) := by
  refine ⟨?_, ?_, ?_⟩
  · intro hne
    unfold hammer2_pfsfree_outcome
    rw [if_pos hne]
  · intro hfr
    unfold hammer2_pfsfree_outcome at hfr
    by_cases hne : irootRefs ≠ 1
    · rw [if_pos hne] at hfr
      cases hfr
    · rw [if_neg hne] at hfr
      by_cases hcsp : chainsStillPresent nchains chains
      · rw [if_pos hcsp] at hfr
        by_cases hmp : !mpSet
        · rw [if_pos hmp] at hfr
          cases hfr
        · rw [if_neg hmp] at hfr
          cases hfr
      · refine ⟨by omega, by simpa using hcsp⟩
  · intro h1 hmp hcsp
    unfold hammer2_pfsfree_outcome
    rw [if_neg (by omega)]
    rw [if_pos hcsp, hmp]
    rw [if_neg (by simp)]

theorem c7_witness :
    hammer2_pfsfree_outcome false 3 0 [] = PfsfreeOutcome.assertFail ∧
    hammer2_pfsfree_outcome true 1 1 [some true]
      = PfsfreeOutcome.stillInUse :=
  ⟨(c7_amended false 3 0 []).1 (by decide),
   (c7_amended true 1 1 [some true]).2.2 rfl rfl (by decide)⟩

/-- C8 counterexample: an unmount request whose mount handle has no PFS
binding is not rejected — `hammer2_unmount` returns 0 (success) immediately,
here on a reachable two-mount state with an unknown handle. -/
theorem c8_counterexample :
    (hammer2_unmount stA2 { mid := 9, force := false, flushOk := false }).1
        = 0 ∧
    (hammer2_unmount stA2 { mid := 9, force := false, flushOk := false }).2
        = stA2 := by
  decide

/-- C8 (amended): an unmount request against a mount with no PFS binding
returns 0 immediately and changes nothing (`if (pmp == NULL) return 0;`) —
it reports success rather than an error. -/
theorem c8_amended (st : H2State) (inp : UnmountIn)
    (h : st.bound.find? (fun b => b.1 == inp.mid) = none) :
    hammer2_unmount st inp = (0, st) := by
  unfold hammer2_unmount
  rw [h]

theorem c8_witness :
    hammer2_unmount initState { mid := 7, force := false, flushOk := true }
      = (0, initState) :=
  c8_amended initState { mid := 7, force := false, flushOk := true } (by decide)

/-- C9: for every bound PFS of a reachable state, statfs succeeds and reports
block totals as the primary (slot-0) device's volume-header allocator fields
divided by the fixed block size, and the inode count as the slot-0 (first
live) cluster member chain's summary inode count. -/
theorem c9_statfs_fields (env : DevId → Media) (st : H2State)
    (h : Reachable env st) (b : MountId × Nat) (hb : b ∈ st.bound) :
    ∃ q ∈ st.pfslist, q.uid = b.2 ∧
    ∃ dev ∈ st.mntlist, (q.slots.headD Slot.empty).hmp = some dev.id ∧
    ∃ c, (q.slots.headD Slot.empty).chain = some c ∧
    hammer2_statfs st b.2 =
      some { f_bsize := HAMMER2_PBUFSIZE,
             f_blocks := dev.allocator_size / HAMMER2_PBUFSIZE,
             f_bfree := dev.allocator_free / HAMMER2_PBUFSIZE,
             f_bavail := dev.allocator_free / HAMMER2_PBUFSIZE,
             f_files := c.inode_count } := by
  have hinv := inv_reachable env st h
  have hpfsNodup : (st.pfslist.map (fun p => p.uid)).Nodup := by
    have := hinv.uidNodup
    rw [List.map_append] at this
    exact this.of_append_left
  rcases hinv.boundPfs b hb with ⟨q, hqm, hqu, _⟩
  rcases hinv.pfsShape q hqm with ⟨dq, hdqin, _, _, _, hom⟩
  rcases hom with ⟨nm, ty, c, hc, hslots, _⟩
  rcases List.mem_map.mp hdqin with ⟨dev, hdev, hdevid⟩
  have hfq : findPfs st b.2 = some q := by
    unfold findPfs
    rw [← hqu]
    exact find?_eq_of_mem_nodup (fun p : Pfs => p.uid) st.pfslist hpfsNodup q hqm
  have hhead : q.slots.headD Slot.empty = memberSlot nm ty c := by
    rw [hslots]
    rfl
  have hfd : st.mntlist.find? (fun dv => dv.id == dev.id) = some dev :=
    find?_eq_of_mem_nodup (fun dv : Dev => dv.id) st.mntlist
      hinv.devNodup dev hdev
  refine ⟨q, hqm, hqu, dev, hdev, ?_, c, ?_, ?_⟩
  · rw [hhead]
    unfold memberSlot
    rw [hc, hdevid]
  · rw [hhead]
    rfl
  · unfold hammer2_statfs
    rw [hfq]
    dsimp only
    rw [hhead]
    unfold memberSlot
    dsimp only
    rw [hc, ← hdevid, hfd]

theorem c9_witness :
    ∃ q ∈ stA2.pfslist, q.uid = (1, 1).2 ∧
    ∃ dev ∈ stA2.mntlist, (q.slots.headD Slot.empty).hmp = some dev.id ∧
    ∃ c, (q.slots.headD Slot.empty).chain = some c ∧
    hammer2_statfs stA2 (1, 1).2 =
      some { f_bsize := HAMMER2_PBUFSIZE,
             f_blocks := dev.allocator_size / HAMMER2_PBUFSIZE,
             f_bfree := dev.allocator_free / HAMMER2_PBUFSIZE,
             f_bavail := dev.allocator_free / HAMMER2_PBUFSIZE,
             f_files := c.inode_count } :=
  c9_statfs_fields envA stA2 reachA2 (1, 1) (by decide)

/-- C10: in every reachable state every registered PFS (named or super-root)
carries a non-NULL `force_local`, every named PFS has a first-member name
(the identity key), and the clustered-mode branch of PFS resolution is
unreachable: `hammer2_pfsalloc` with NULL `force_local` always trips its
assertion. -/
theorem c10_forced_local_only (env : DevId → Media) (st : H2State)
    (h : Reachable env st) :
    (∀ p ∈ st.pfslist ++ st.spmplist, p.force_local.isSome = true) ∧
    (∀ p ∈ st.pfslist, p.name0.isSome = true) ∧
    (∀ (chain : Option Chain) (rip : Option LabelData),
        hammer2_pfsalloc st chain rip none = none) := by
  have hinv := inv_reachable env st h
  refine ⟨?_, ?_, ?_⟩
  · intro p hp
    rcases List.mem_append.mp hp with hp | hp
    · rcases hinv.pfsShape p hp with ⟨d, _, hfl, _⟩
      rw [hfl]
      rfl
    · rcases hinv.spmpShape p hp with ⟨d, _, hfl, _⟩
      rw [hfl]
      rfl
  · intro p hp
    rcases hinv.pfsShape p hp with ⟨d, _, _, _, _, hom⟩
    rcases hom with ⟨nm, ty, c, _, hslots, _⟩
    unfold Pfs.name0
    rw [hslots]
    rfl
  · intro chain rip
    unfold hammer2_pfsalloc
    rfl

theorem c10_witness :
    (∀ p ∈ stA2.pfslist ++ stA2.spmplist, p.force_local.isSome = true) ∧
    (∀ p ∈ stA2.pfslist, p.name0.isSome = true) ∧
    (∀ (chain : Option Chain) (rip : Option LabelData),
        hammer2_pfsalloc stA2 chain rip none = none) :=
  c10_forced_local_only envA stA2 reachA2

end H2
